import Mathlib

/-!
Verification of the go-steam-language parser (packages `parser`: `token.go`,
`ast.go`, and the analyzer file) against its natural-language specification.

The Go code is shallowly embedded:
* byte slices become `List Nat` (one entry per byte, each < 256);
* the regex-driven tokenizer of `token.go` is embedded as a scanner whose
  single step tries the alternatives of the source pattern in order, with the
  preference (leftmost-first, greedy / lazy) semantics of Go's `regexp`
  package specialised to that fixed pattern;
* the pointer graph of `ast.go` (`node`, `Symbol`) becomes an arena (`Heap`)
  of `NodeData` records addressed by allocation index; the Go program always
  allocates parents before children, so parent indices are smaller than child
  indices, which bounds the parent-chain recursion;
* Go panics and analyzer errors become an `Except Err` result; `recover`
  (used only by `ImportSymbols`) catches the error;
* loops recurse on an explicit bound (`fuel`); call sites pass a bound that
  provably cannot be exhausted, and exhaustion is the distinguished artifact
  error `Err.noFuel`.
-/

deriving instance DecidableEq for Except

namespace GoSteam

/-- Errors of the embedded program.  The `panic*` constructors are Go panics,
`unexpectedTok`/`eofErr` are the positioned parse errors built by
`Analyzer.Errorf`, `invalidUtf8` is the tokenizer's bad-encoding failure, and
`noFuel` is an artifact of the bounded loop embedding (unreachable for the
bounds supplied at call sites). -/
inductive Err where
  | panicNilSymbol
  | panicEmptySymbol
  | panicDupSymbol (v : List Nat)
  | panicNilDefault
  | panicNilNode
  | panicNilDeref
  | unexpectedTok (row col : Nat) (raw : List Nat)
  | eofErr
  | invalidUtf8
  | noFuel
deriving DecidableEq, Repr

/-- The token classification tags of `token.go` (`OpCode`). -/
inductive OpCode where
  | opWhitespace
  | opTerminator
  | opString
  | opComment
  | opIdentifier
  | opNamespace
  | opPreprocess
  | opOperator
  | opInvalid
deriving DecidableEq, Repr

/-- `Token` of `token.go`.  The Go struct also carries `Name` (always
`Op.String()`, a pure rendering of `op`) and `Error` (never assigned anywhere
in the package); both are dropped. -/
structure Token where
  op : OpCode
  value : List Nat
  raw : List Nat := []
  row : Nat := 0
  col : Nat := 0
deriving DecidableEq, Repr

/-- ASCII string literal as a byte list (used only for ASCII literals, where
UTF-8 bytes and code points coincide). -/
def bts (s : String) : List Nat :=
  s.toList.map Char.toNat

/-! ### Tokenizer (`token.go`)

The source pattern, tried alternative by alternative at each position:

```
(?m:(?P<whitespace>\s+)|(?P<terminator>[;])|["](?P<string>.+?)["]|
  //(?P<comment>.*)$|(?P<identifier>-?[a-zA-Z_0-9][a-zA-Z0-9_.]*)|
  (?P<namespace>::)|[#](?P<preprocess>[a-zA-Z]*)|(?P<operator>[{}<>\]=|])|
  (?P<invalid>[^\s]+))
```
-/

/-- Go regexp `\s` (Perl class): tab, newline, form feed, carriage return,
space. -/
def isSpaceB (b : Nat) : Bool :=
  b == 9 || b == 10 || b == 12 || b == 13 || b == 32

def isAlphaB (b : Nat) : Bool :=
  (65 ≤ b && b ≤ 90) || (97 ≤ b && b ≤ 122)

def isDigitB (b : Nat) : Bool :=
  48 ≤ b && b ≤ 57

/-- First character class of the identifier alternative, after the optional
leading `-`: `[a-zA-Z_0-9]`. -/
def isIdentStartB (b : Nat) : Bool :=
  isAlphaB b || isDigitB b || b == 95

/-- Continuation class of the identifier alternative: `[a-zA-Z0-9_.]`. -/
def isIdentContB (b : Nat) : Bool :=
  isAlphaB b || isDigitB b || b == 95 || b == 46

/-- Operator class `[{}<>\]=|]`. -/
def isOperatorB (b : Nat) : Bool :=
  b == 123 || b == 125 || b == 60 || b == 62 || b == 93 || b == 61 || b == 124

/-- One raw regex match: chosen alternative, full matched span (`Raw`), and
captured group (`Value`). -/
structure RawMatch where
  op : OpCode
  matched : List Nat
  captured : List Nat
deriving DecidableEq, Repr

/-- `(?P<whitespace>\s+)`: greedy nonempty run of spaces. -/
def matchWhitespace (bs : List Nat) : Option (RawMatch × List Nat) :=
  let w := bs.takeWhile isSpaceB
  if w.isEmpty then none
  else some (⟨.opWhitespace, w, w⟩, bs.dropWhile isSpaceB)

/-- `(?P<terminator>[;])`. -/
def matchTerminator : List Nat → Option (RawMatch × List Nat)
  | 59 :: r => some (⟨.opTerminator, [59], [59]⟩, r)
  | _ => none

/-- Scan for the closing quote of a string content tail: bytes before the
first `"` become content, a line break (which `.` cannot match) aborts. -/
def strScan : List Nat → Option (List Nat × List Nat)
  | [] => none
  | b :: r =>
    if b == 34 then some ([], r)
    else if b == 10 then none
    else (strScan r).map (fun p => (b :: p.1, p.2))

/-- `["](?P<string>.+?)["]`: lazy, so the content runs to the first closing
quote after at least one content character. -/
def matchStringLit : List Nat → Option (RawMatch × List Nat)
  | 34 :: c0 :: r =>
    if c0 == 10 then none
    else if c0 == 34 then
      -- first content char is forced (`.+?` needs one), it may itself be `"`
      (strScan r).map (fun p =>
        (⟨.opString, 34 :: c0 :: (p.1 ++ [34]), c0 :: p.1⟩, p.2))
    else
      (strScan r).map (fun p =>
        (⟨.opString, 34 :: c0 :: (p.1 ++ [34]), c0 :: p.1⟩, p.2))
  | _ => none

/-- `//(?P<comment>.*)$`: the rest of the line. -/
def matchComment : List Nat → Option (RawMatch × List Nat)
  | 47 :: 47 :: r =>
    let c := r.takeWhile (fun b => !(b == 10))
    some (⟨.opComment, 47 :: 47 :: c, c⟩, r.dropWhile (fun b => !(b == 10)))
  | _ => none

/-- `(?P<identifier>-?[a-zA-Z_0-9][a-zA-Z0-9_.]*)`. -/
def matchIdentifier : List Nat → Option (RawMatch × List Nat)
  | 45 :: c :: r =>
    if isIdentStartB c then
      let t := r.takeWhile isIdentContB
      some (⟨.opIdentifier, 45 :: c :: t, 45 :: c :: t⟩, r.dropWhile isIdentContB)
    else none
  | c :: r =>
    if isIdentStartB c then
      let t := r.takeWhile isIdentContB
      some (⟨.opIdentifier, c :: t, c :: t⟩, r.dropWhile isIdentContB)
    else none
  | _ => none

/-- `(?P<namespace>::)`. -/
def matchNamespace : List Nat → Option (RawMatch × List Nat)
  | 58 :: 58 :: r => some (⟨.opNamespace, [58, 58], [58, 58]⟩, r)
  | _ => none

/-- `[#](?P<preprocess>[a-zA-Z]*)`: the captured directive may be empty. -/
def matchPreprocess : List Nat → Option (RawMatch × List Nat)
  | 35 :: r =>
    let t := r.takeWhile isAlphaB
    some (⟨.opPreprocess, 35 :: t, t⟩, r.dropWhile isAlphaB)
  | _ => none

/-- `(?P<operator>[{}<>\]=|])`. -/
def matchOperator : List Nat → Option (RawMatch × List Nat)
  | c :: r => if isOperatorB c then some (⟨.opOperator, [c], [c]⟩, r) else none
  | _ => none

/-- `(?P<invalid>[^\s]+)`: greedy nonempty run of non-space bytes. -/
def matchInvalid (bs : List Nat) : Option (RawMatch × List Nat) :=
  let w := bs.takeWhile (fun b => !(isSpaceB b))
  if w.isEmpty then none
  else some (⟨.opInvalid, w, w⟩, bs.dropWhile (fun b => !(isSpaceB b)))

/-- One scanner step: the pattern's alternatives in source order. -/
def scanStep (bs : List Nat) : Option (RawMatch × List Nat) :=
  (matchWhitespace bs).orElse fun _ =>
  (matchTerminator bs).orElse fun _ =>
  (matchStringLit bs).orElse fun _ =>
  (matchComment bs).orElse fun _ =>
  (matchIdentifier bs).orElse fun _ =>
  (matchNamespace bs).orElse fun _ =>
  (matchPreprocess bs).orElse fun _ =>
  (matchOperator bs).orElse fun _ =>
  matchInvalid bs

/-- `FindAllSubmatchIndex`: all successive matches.  `fuel` bounds the number
of matches; each step consumes at least one byte, so `bs.length` suffices. -/
def scanF : Nat → List Nat → List RawMatch
  | 0, _ => []
  | fuel + 1, bs =>
    match scanStep bs with
    | none => []
    | some (m, rest) => m :: scanF fuel rest

/-- Go `utf8.DecodeRune` on a byte list: returns (rune, size); the
replacement rune `0xFFFD` with size 1 on invalid input, size 0 on empty. -/
def decodeRuneB : List Nat → Nat × Nat
  | [] => (0xFFFD, 0)
  | b0 :: rest =>
    if b0 < 0x80 then (b0, 1)
    else if 0xC2 ≤ b0 && b0 ≤ 0xDF then
      match rest with
      | b1 :: _ =>
        if 0x80 ≤ b1 && b1 ≤ 0xBF then
          (((b0 - 0xC0) * 64 + (b1 - 0x80)), 2)
        else (0xFFFD, 1)
      | _ => (0xFFFD, 1)
    else if 0xE0 ≤ b0 && b0 ≤ 0xEF then
      match rest with
      | b1 :: b2 :: _ =>
        let lo1 := if b0 == 0xE0 then 0xA0 else 0x80
        let hi1 := if b0 == 0xED then 0x9F else 0xBF
        if lo1 ≤ b1 && b1 ≤ hi1 && 0x80 ≤ b2 && b2 ≤ 0xBF then
          (((b0 - 0xE0) * 4096 + (b1 - 0x80) * 64 + (b2 - 0x80)), 3)
        else (0xFFFD, 1)
      | _ => (0xFFFD, 1)
    else if 0xF0 ≤ b0 && b0 ≤ 0xF4 then
      match rest with
      | b1 :: b2 :: b3 :: _ =>
        let lo1 := if b0 == 0xF0 then 0x90 else 0x80
        let hi1 := if b0 == 0xF4 then 0x8F else 0xBF
        if lo1 ≤ b1 && b1 ≤ hi1 && 0x80 ≤ b2 && b2 ≤ 0xBF &&
            0x80 ≤ b3 && b3 ≤ 0xBF then
          (((b0 - 0xF0) * 262144 + (b1 - 0x80) * 4096 +
            (b2 - 0x80) * 64 + (b3 - 0x80)), 4)
        else (0xFFFD, 1)
      | _ => (0xFFFD, 1)
    else (0xFFFD, 1)

/-- Loop body of `countRunes`; `fuel` bounds the number of decoded runes
(each one consumes at least one byte, so `data.length` suffices).
`countRunes` treats the replacement rune as invalid encoding, exactly as the
Go code's `case utf8.RuneError`. -/
def countRunesF : Nat → List Nat → Nat → Nat → Except Err (Nat × Nat)
  | _, [], rows, cols => .ok (rows, cols)
  | 0, _ :: _, _, _ => .error .noFuel
  | fuel + 1, data, rows, cols =>
    let (r, s) := decodeRuneB data
    if r == 10 then countRunesF fuel (data.drop s) (rows + 1) 0
    else if r == 0xFFFD then .error .invalidUtf8
    else countRunesF fuel (data.drop s) rows (cols + 1)

/-- `countRunes` of `token.go`: line breaks and decoded characters since the
last line break in a byte range. -/
def countRunesB (data : List Nat) : Except Err (Nat × Nat) :=
  countRunesF data.length data 0 0

/-- The per-match body of `Tokenizer.tokenize`: update row/col by the rune
counts of the full matched span, then emit a token unless the match was
whitespace or a comment. -/
def tokenizeLoop : List RawMatch → Nat → Nat → Except Err (List Token)
  | [], _, _ => .ok []
  | m :: ms, row, col => do
    let (rows, cols) ← countRunesB m.matched
    let row' := row + rows
    let col' := if rows > 0 then cols else col + cols
    if m.op = .opComment || m.op = .opWhitespace then
      tokenizeLoop ms row' col'
    else do
      let ts ← tokenizeLoop ms row' col'
      pure (⟨m.op, m.captured, m.matched, row', col'⟩ :: ts)

/-- `Tokenizer.Tokenize`: scan the whole input, then build the token queue
with running row/col starting at (1, 1). -/
def tokenizeB (data : List Nat) : Except Err (List Token) :=
  tokenizeLoop (scanF data.length data) 1 1

/-! ### Symbols and nodes (`ast.go`)

Go `*node` / `*Symbol` pointers become arena indices.  A Go typed node
(`ClassNode`, `EnumNode`, `PropertyNode`) and its embedded inner `node` are
flattened into one `NodeData`; the inner node's `owner` back-pointer to the
typed wrapper becomes `owner = some self`.  `newNode` always receives an
already-allocated parent, so parent indices are strictly smaller than child
indices; `findSymbolF` relies on that ordering to bound its parent-chain
walk. -/

/-- `Symbol` of `ast.go`: `Value`, `Scope` (the node whose table holds the
symbol) and `Node` (the resolved tree node, if any). -/
structure Symbol where
  value : List Nat
  scope : Option Nat := none
  node : Option Nat := none
deriving DecidableEq, Repr

/-- Which typed wrapper owns the node (plain `NewNode` roots have none). -/
inductive NodeKind where
  | plain
  | cls
  | enm
  | prop
deriving DecidableEq, Repr

/-- One flattened node: the inner `node` fields (`parent`, `owner`,
`children`, `symbols`) plus the fields of the typed wrappers (`baseNode.Value`
as `value`, class/enum `Qualifier`, enum `Flags` as `flagsB`, and the
`PropertyNode` fields). -/
structure NodeData where
  kind : NodeKind := .plain
  parent : Option Nat := none
  owner : Option Nat := none
  children : List Nat := []
  symbols : List Symbol := []
  value : List Nat := []
  qualifier : Option Symbol := none
  flagsB : Bool := false
  flagsStr : List Nat := []
  flagsOpt : Option Symbol := none
  typ : Option Symbol := none
  dflt : List Symbol := []
  obsolete : Bool := false
  obsoleteReason : List Nat := []
deriving DecidableEq, Repr

/-- The node arena; index = allocation order. -/
structure Heap where
  nodes : List NodeData
deriving DecidableEq, Repr

def getNode (h : Heap) (nid : Nat) : NodeData :=
  (h.nodes.get? nid).getD {}

def setNode (h : Heap) (nid : Nat) (d : NodeData) : Heap :=
  ⟨h.nodes.set nid d⟩

/-- `NewNode` / `newNode` / `NewClassNode` / `NewEnumNode` /
`NewPropertyNode`: allocate a node, register it with its parent
(`parent.AddChild`), and set the owner back-reference for typed nodes. -/
def allocNode (h : Heap) (parent : Option Nat) (k : NodeKind) : Heap × Nat :=
  let nid := h.nodes.length
  let nd : NodeData :=
    { kind := k, parent := parent
      owner := if k = .plain then none else some nid }
  let h1 : Heap := ⟨h.nodes ++ [nd]⟩
  match parent with
  | some p => (setNode h1 p { getNode h1 p with children := (getNode h1 p).children ++ [nid] }, nid)
  | none => (h1, nid)

/-- Map lookup `n.symbols[value]`. -/
def lookupSymbol (h : Heap) (nid : Nat) (v : List Nat) : Option Symbol :=
  (getNode h nid).symbols.find? (fun s => s.value == v)

/-- `node.AddSymbol`: panics on a nil symbol, an empty name, or a name
already present in this node's own table; otherwise sets the symbol's scope
back-reference and stores it. -/
def addSymbol (h : Heap) (nid : Nat) (s : Option Symbol) : Except Err Heap :=
  match s with
  | none => .error .panicNilSymbol
  | some s =>
    if s.value = [] then .error .panicEmptySymbol
    else if (getNode h nid).symbols.any (fun t => t.value == s.value) then
      .error (.panicDupSymbol s.value)
    else
      .ok (setNode h nid
        { getNode h nid with
          symbols := (getNode h nid).symbols ++ [{ s with scope := some nid }] })

/-- `node.CreateSymbol`: build a symbol targeting this node's owner and add
it; the returned symbol carries the scope set by `AddSymbol`. -/
def createSymbol (h : Heap) (nid : Nat) (v : List Nat) :
    Except Err (Heap × Symbol) :=
  let sym : Symbol := { value := v, node := (getNode h nid).owner }
  (addSymbol h nid (some sym)).map
    (fun h' => (h', { sym with scope := some nid }))

/-- `node.FindSymbol`: own table first, then the parent chain (passing
`create` through), then — create here if asked.  The `p < nid` guard encodes
the allocation ordering of parents; on heaps built by this program it always
holds, and `fuel = nid + 1` then suffices. -/
def findSymbolF : Nat → Heap → Nat → List Nat → Bool →
    Except Err (Heap × Option Symbol)
  | 0, h, _, _, _ => .ok (h, none)
  | fuel + 1, h, nid, v, create =>
    match lookupSymbol h nid v with
    | some s => .ok (h, some s)
    | none =>
      match (getNode h nid).parent with
      | some p =>
        if p < nid then
          match findSymbolF fuel h p v create with
          | .error e => .error e
          | .ok (h', some s) => .ok (h', some s)
          | .ok (h', none) =>
            if create then
              (createSymbol h' nid v).map (fun q => (q.1, some q.2))
            else .ok (h', none)
        else
          if create then
            (createSymbol h nid v).map (fun q => (q.1, some q.2))
          else .ok (h, none)
      | none =>
        if create then
          (createSymbol h nid v).map (fun q => (q.1, some q.2))
        else .ok (h, none)

def findSymbol (h : Heap) (nid : Nat) (v : List Nat) (create : Bool) :
    Except Err (Heap × Option Symbol) :=
  findSymbolF (nid + 1) h nid v create

/-- `node.FindNestedSymbol`: walk the path, creating only at the last
component; between components move to the symbol's resolved node, or to its
scope when it has none.  A symbol with neither is a nil `Node` in Go and the
next iteration would dereference it. -/
def findNestedSymbol (h : Heap) (nid : Nat) :
    List (List Nat) → Except Err (Heap × Option Symbol)
  | [] => .ok (h, none)
  | [v] => findSymbol h nid v true
  | v :: v' :: rest =>
    match findSymbol h nid v false with
    | .error e => .error e
    | .ok (h', none) => .ok (h', none)
    | .ok (h', some s) =>
      match s.node with
      | some nxt => findNestedSymbol h' nxt (v' :: rest)
      | none =>
        match s.scope with
        | some nxt => findNestedSymbol h' nxt (v' :: rest)
        | none => .error .panicNilNode

/-- `node.ImportSymbols`: try to add every symbol of the other node's table,
swallowing each failure with `recover`. -/
def importSymbols (h : Heap) (nid oid : Nat) : Heap :=
  ((getNode h oid).symbols).foldl
    (fun hh s =>
      match addSymbol hh nid (some s) with
      | .ok hh' => hh'
      | .error _ => hh)
    h

/-- `PropertyNode.AddDefault`: panics on a nil symbol, otherwise appends to
the property's default list. -/
def addDefault (h : Heap) (nid : Nat) (s : Option Symbol) : Except Err Heap :=
  match s with
  | none => .error .panicNilDefault
  | some s =>
    .ok (setNode h nid { getNode h nid with dflt := (getNode h nid).dflt ++ [s] })

/-- `baseNode.Symbol()`: a symbol naming the node and targeting it. -/
def nodeSymbol (h : Heap) (nid : Nat) : Symbol :=
  { value := (getNode h nid).value, node := some nid }

def setValue (h : Heap) (nid : Nat) (v : List Nat) : Heap :=
  setNode h nid { getNode h nid with value := v }

def setQualifier (h : Heap) (nid : Nat) (q : Option Symbol) : Heap :=
  setNode h nid { getNode h nid with qualifier := q }

def setFlagsB (h : Heap) (nid : Nat) (b : Bool) : Heap :=
  setNode h nid { getNode h nid with flagsB := b }

def setFlagsStr (h : Heap) (nid : Nat) (v : List Nat) : Heap :=
  setNode h nid { getNode h nid with flagsStr := v }

def setFlagsOpt (h : Heap) (nid : Nat) (q : Option Symbol) : Heap :=
  setNode h nid { getNode h nid with flagsOpt := q }

def setTyp (h : Heap) (nid : Nat) (q : Option Symbol) : Heap :=
  setNode h nid { getNode h nid with typ := q }

def setObsolete (h : Heap) (nid : Nat) (b : Bool) : Heap :=
  setNode h nid { getNode h nid with obsolete := b }

def setObsoleteReason (h : Heap) (nid : Nat) (v : List Nat) : Heap :=
  setNode h nid { getNode h nid with obsoleteReason := v }

/-! ### Token equality (`Token.Equal`, `bytes.EqualFold`) -/

/-- Case folding of one byte.  Go's `bytes.EqualFold` applies Unicode simple
folding rune by rune; every value the analyzer matches with `Token.Equal` is
ASCII, where simple folding is exactly ASCII lower-casing, which is what this
models. -/
def foldB (b : Nat) : Nat :=
  if 65 ≤ b && b ≤ 90 then b + 32 else b

/-- `bytes.EqualFold`, byte by byte on the ASCII range. -/
def equalFold : List Nat → List Nat → Bool
  | [], [] => true
  | a :: as, b :: bs => foldB a == foldB b && equalFold as bs
  | _, _ => false

/-- `Token.Equal`: same classification tag and case-insensitively equal
value bytes. -/
def tokenEqual (t1 t2 : Token) : Bool :=
  t1.op == t2.op && equalFold t1.value t2.value

/-! ### The analyzer

State: the node arena and the remaining token queue.  `importFile` opens and
reads a file from disk and recursively analyzes it; that file-system action
is passed in as a parameter `imp` by the two functions that can reach it, so
every theorem below quantifies over it. -/

structure St where
  heap : Heap
  toks : List Token
deriving DecidableEq, Repr

/-- The fixed tokens the analyzer matches against (`var (...)` block). -/
def openQualifierToken : Token := { op := .opOperator, value := bts "<" }

def closeQualifierToken : Token := { op := .opOperator, value := bts ">" }

def openScopeToken : Token := { op := .opOperator, value := bts "\x7b" }

def closeScopeToken : Token := { op := .opOperator, value := bts "\x7d" }

def assignmentToken : Token := { op := .opOperator, value := bts "=" }

def binaryOrToken : Token := { op := .opOperator, value := bts "|" }

def obsoleteToken : Token := { op := .opIdentifier, value := bts "obsolete" }

def flagsToken : Token := { op := .opIdentifier, value := bts "flags" }

/-- `Analyzer.expectOp`: fail with `EOF` on an empty queue, with a
positioned error on a tag mismatch, else dequeue. -/
def expectOp (op : OpCode) (st : St) : Except Err (Token × St) :=
  match st.toks with
  | [] => .error .eofErr
  | t :: rest =>
    if t.op = op then .ok (t, { st with toks := rest })
    else .error (.unexpectedTok t.row t.col t.raw)

/-- `Analyzer.expectToken`: like `expectOp` but compares whole tokens with
`Token.Equal`. -/
def expectTokenE (t1 : Token) (st : St) : Except Err (Token × St) :=
  match st.toks with
  | [] => .error .eofErr
  | t2 :: rest =>
    if tokenEqual t1 t2 then .ok (t2, { st with toks := rest })
    else .error (.unexpectedTok t2.row t2.col t2.raw)

/-- `Analyzer.optionalOp`: dequeue the head token only if its tag matches. -/
def optionalOp (op : OpCode) (st : St) : Option Token × St :=
  match st.toks with
  | [] => (none, st)
  | t :: rest =>
    if t.op = op then (some t, { st with toks := rest }) else (none, st)

/-- `Analyzer.optionalToken`: dequeue the head token only if `Token.Equal`
to the expected one. -/
def optionalTokenE (t1 : Token) (st : St) : Option Token × St :=
  match st.toks with
  | [] => (none, st)
  | t2 :: rest =>
    if tokenEqual t1 t2 then (some t2, { st with toks := rest }) else (none, st)

/-- `tokenStringValues`. -/
def tokenValues (ts : List Token) : List (List Nat) :=
  ts.map Token.value

/-- `Analyzer.getNamespacedIdentifier`: one identifier, optionally followed
by `::` and a second identifier. -/
def getNamespacedIdentifier (st : St) : Except Err (List Token × St) := do
  let (id1, st1) ← expectOp .opIdentifier st
  match optionalOp .opNamespace st1 with
  | (some _, st2) => do
    let (id2, st3) ← expectOp .opIdentifier st2
    pure ([id1, id2], st3)
  | (none, st2) => pure ([id1], st2)

/-- `Analyzer.getQualifierIdentifier`: an optional
`< NamespacedIdentifier >` group; absent, it yields no tokens. -/
def getQualifierIdentifier (st : St) : Except Err (List Token × St) :=
  match optionalTokenE openQualifierToken st with
  | (none, st1) => .ok ([], st1)
  | (some _, st1) => do
    let (quals, st2) ← getNamespacedIdentifier st1
    let (_, st3) ← expectTokenE closeQualifierToken st2
    pure (quals, st3)

/-- The `for` loop in `Analyzer.analyzeProperty` that reads the default
chain `= X (| Y)*`: resolve each namespaced identifier against the property
node itself and append it to the property's defaults. -/
def defaultsLoop : Nat → Nat → St → Except Err St
  | 0, _, _ => .error .noFuel
  | fuel + 1, nid, st => do
    let (toks, st1) ← getNamespacedIdentifier st
    let (h2, sym) ← findNestedSymbol st1.heap nid (tokenValues toks)
    let h3 ← addDefault h2 nid sym
    match optionalTokenE binaryOrToken { heap := h3, toks := st1.toks } with
    | (some _, st2) => defaultsLoop fuel nid st2
    | (none, st2) => pure st2

/-- `Analyzer.analyzeProperty`.  The `(t3 ≠ nil, t2 = nil)` case
dereferences a nil token in Go (`t2.ValueString()`); it is unreachable
because `optionalOp` inspects the same head token twice. -/
def analyzeProperty (root : Nat) (st : St) : Except Err St := do
  let (h0, nid) := allocNode st.heap (some root) .prop
  let (t1, st1) ← expectOp .opIdentifier { heap := h0, toks := st.toks }
  let (quals, st2) ← getQualifierIdentifier st1
  let (t2, st3) := optionalOp .opIdentifier st2
  let (t3, st4) := optionalOp .opIdentifier st3
  let (nodeValue, typeSymbol, flags) ←
    match t3, t2 with
    | some t3', some t2' => pure (t3'.value, t2'.value, t1.value)
    | some _, none => (.error .panicNilDeref : Except Err _)
    | none, some t2' => pure (t2'.value, t1.value, [])
    | none, none => pure (t1.value, [], [])
  let h5 := setValue st4.heap nid nodeValue
  let (h6, fq) ← findNestedSymbol h5 root (tokenValues quals)
  let h6' := setFlagsOpt h6 nid fq
  let h7 ← addSymbol h6' root (some (nodeSymbol h6' nid))
  let h8 ←
    if typeSymbol ≠ ([] : List Nat) then do
      let (h8, ts) ← findSymbol h7 root typeSymbol true
      pure (setTyp h8 nid ts)
    else pure h7
  let h9 := setFlagsStr h8 nid flags
  let st5 : St := { heap := h9, toks := st4.toks }
  let st7 ←
    match optionalTokenE assignmentToken st5 with
    | (some _, st6) => defaultsLoop (st6.toks.length + 1) nid st6
    | (none, st6) => pure st6
  let (_, st8) ← expectOp .opTerminator st7
  match optionalTokenE obsoleteToken st8 with
  | (none, st9) => pure st9
  | (some _, st9) =>
    let ho := setObsolete st9.heap nid true
    match optionalOp .opString { heap := ho, toks := st9.toks } with
    | (some r, st10) =>
      pure { heap := setObsoleteReason st10.heap nid r.value, toks := st10.toks }
    | (none, st10) =>
      let (_, st11) := optionalOp .opTerminator st10
      pure st11

/-- The `for closeScope == nil` loop of `Analyzer.analyzeScope`. -/
def scopeLoop : Nat → Nat → St → Except Err St
  | 0, _, _ => .error .noFuel
  | fuel + 1, root, st =>
    match optionalTokenE closeScopeToken st with
    | (some _, st1) => pure st1
    | (none, st1) => do
      let st2 ← analyzeProperty root st1
      scopeLoop fuel root st2

/-- `Analyzer.analyzeScope`: `{`, properties until `}`. -/
def analyzeScope (root : Nat) (st : St) : Except Err St := do
  let (_, st1) ← expectTokenE openScopeToken st
  scopeLoop (st1.toks.length + 1) root st1

/-- `Analyzer.analyzeClass`. -/
def analyzeClass (root : Nat) (st : St) : Except Err St := do
  let (h0, nid) := allocNode st.heap (some root) .cls
  let (name, st1) ← expectOp .opIdentifier { heap := h0, toks := st.toks }
  let h1 := setValue st1.heap nid name.value
  let h2 ← addSymbol h1 root (some (nodeSymbol h1 nid))
  let (quals, st2) ← getQualifierIdentifier { heap := h2, toks := st1.toks }
  let (h3, q) ← findNestedSymbol st2.heap root (tokenValues quals)
  let h4 := setQualifier h3 nid q
  let st3 ← analyzeScope nid { heap := h4, toks := st2.toks }
  let (_, st4) ← expectOp .opTerminator st3
  pure st4

/-- `Analyzer.analyzeEnum`. -/
def analyzeEnum (root : Nat) (st : St) : Except Err St := do
  let (h0, nid) := allocNode st.heap (some root) .enm
  let (name, st1) ← expectOp .opIdentifier { heap := h0, toks := st.toks }
  let h1 := setValue st1.heap nid name.value
  let h2 ← addSymbol h1 root (some (nodeSymbol h1 nid))
  let (quals, st2) ← getQualifierIdentifier { heap := h2, toks := st1.toks }
  let (h3, q) ← findNestedSymbol st2.heap root (tokenValues quals)
  let h4 := setQualifier h3 nid q
  let st2' : St := { heap := h4, toks := st2.toks }
  let st3 :=
    match optionalTokenE flagsToken st2' with
    | (some _, stf) => { stf with heap := setFlagsB stf.heap nid true }
    | (none, stf) => stf
  let st4 ← analyzeScope nid st3
  let (_, st5) ← expectOp .opTerminator st4
  pure st5

/-- The type of the file-import action `Analyzer.importFile` (it reads a
file from disk and recursively analyzes it; the disk access keeps it outside
the embedding, so the functions that can reach it take it as a parameter):
filename bytes, the root node, the state. -/
def ImpAction : Type :=
  List Nat → Nat → St → Except Err St

/-- `Analyzer.handleIdentifierToken`: `class` and `enum` are matched by an
exact `switch` on the value string; anything else is a positioned error. -/
def handleIdentifierToken (t : Token) (root : Nat) (st : St) :
    Except Err St :=
  if t.value = bts "class" then analyzeClass root st
  else if t.value = bts "enum" then analyzeEnum root st
  else .error (.unexpectedTok t.row t.col t.raw)

/-- `Analyzer.handlePreprocessToken`: always expect a string next; run
the import only when the directive's value is exactly `import`. -/
def handlePreprocessToken (imp : ImpAction) (t : Token) (root : Nat)
    (st : St) : Except Err St := do
  let (nextToken, st1) ← expectOp .opString st
  if t.value = bts "import" then imp nextToken.value root st1
  else pure st1

/-- `Analyzer.handleToken`. -/
def handleToken (imp : ImpAction) (t : Token) (root : Nat) (st : St) :
    Except Err St :=
  match t.op with
  | .opPreprocess => handlePreprocessToken imp t root st
  | .opIdentifier => handleIdentifierToken t root st
  | _ => .error (.unexpectedTok t.row t.col t.raw)

/-! ### Specification-side definitions

These formalise phrases of the specification document; the theorems below
compare them with the embedded code. -/

/-- The last node of a parent chain (parents strictly precede children, as in
every heap this program builds). -/
def topAncestorF : Nat → Heap → Nat → Nat
  | 0, _, nid => nid
  | fuel + 1, h, nid =>
    match (getNode h nid).parent with
    | some p => if p < nid then topAncestorF fuel h p else nid
    | none => nid

def topAncestor (h : Heap) (nid : Nat) : Nat :=
  topAncestorF (nid + 1) h nid

/-- Decode a whole byte range into its code points; `none` on a range the
decoder maps to the replacement rune (invalid encoding). -/
def runesOfF : Nat → List Nat → Option (List Nat)
  | _, [] => some []
  | 0, _ :: _ => none
  | fuel + 1, bs =>
    let (r, s) := decodeRuneB bs
    if r == 0xFFFD then none
    else (runesOfF fuel (bs.drop s)).map (fun rs => r :: rs)

def runesOf (bs : List Nat) : Option (List Nat) :=
  runesOfF bs.length bs

/-- 1-based row after reading the given code points: one plus the number of
line breaks. -/
def rowCount (rs : List Nat) : Nat :=
  1 + rs.count 10

/-- Column counter after reading the given code points, starting at column 1:
the running count resets at each line break, leaving the number of decoded
characters after the last line break (plus the leading 1 while no line break
has been read). -/
def colCount (rs : List Nat) : Nat :=
  rs.foldl (fun c r => if r == 10 then 0 else c + 1) 1

/-- Identifier body shape: a start character then continuation characters. -/
def identShapeCore : List Nat → Bool
  | [] => false
  | c :: r => isIdentStartB c && r.all isIdentContB

/-- The shape of the spans the identifier alternative can produce. -/
def identShape (bs : List Nat) : Bool :=
  identShapeCore bs ||
    (match bs with
     | 45 :: r => identShapeCore r
     | _ => false)

/-- The start-of-identifier shape claimed by the specification: a letter or
underscore, or a leading `-`. -/
def claimedIdentStart : List Nat → Bool
  | [] => false
  | c :: _ => isAlphaB c || c == 95 || c == 45

/-- A namespaced identifier of the grammar: a name, optionally a second name
after `::`. -/
def NsId : Type :=
  List Nat × Option (List Nat)

def nsIdPath (q : NsId) : List (List Nat) :=
  match q.2 with
  | none => [q.1]
  | some b => [q.1, b]

def mkIdentTok (v : List Nat) : Token :=
  { op := .opIdentifier, value := v }

def nsSepTok : Token := { op := .opNamespace, value := bts "::" }

def orTok : Token := { op := .opOperator, value := bts "|" }

def semiTok : Token := { op := .opTerminator, value := bts ";" }

def eqAssignTok : Token := { op := .opOperator, value := bts "=" }

def ltTok : Token := { op := .opOperator, value := bts "<" }

def gtTok : Token := { op := .opOperator, value := bts ">" }

/-- The token rendering of a namespaced identifier. -/
def nsIdToks (q : NsId) : List Token :=
  match q.2 with
  | none => [mkIdentTok q.1]
  | some b => [mkIdentTok q.1, nsSepTok, mkIdentTok b]

/-- The ident tokens `getNamespacedIdentifier` collects from `nsIdToks`. -/
def nsIdTokList (q : NsId) : List Token :=
  match q.2 with
  | none => [mkIdentTok q.1]
  | some b => [mkIdentTok q.1, mkIdentTok b]

/-- The token rendering of a default chain `X (| Y)*`. -/
def chainToks : NsId → List NsId → List Token
  | p, [] => nsIdToks p
  | p, q :: qs => nsIdToks p ++ orTok :: chainToks q qs

/-- Overwrite one property's default list (bookkeeping device relating the
analyzer's in-place default writes to a side-effect-free resolution). -/
def setDflt (h : Heap) (nid : Nat) (l : List Symbol) : Heap :=
  setNode h nid { getNode h nid with dflt := l }

/-- Modelled from the spec: each element of a property's default chain is
resolved via `FindNestedSymbol` against the property node itself and the
results are collected in encounter order; a failed resolution is the nil
symbol that `AddDefault` refuses. -/
def resolveChainSpec : Heap → Nat → List (List (List Nat)) →
    Except Err (Heap × List Symbol)
  | h, _, [] => .ok (h, [])
  | h, pid, p :: ps =>
    match findNestedSymbol h pid p with
    | .error e => .error e
    | .ok (_, none) => .error .panicNilDefault
    | .ok (h1, some s) =>
      (resolveChainSpec h1 pid ps).map (fun q => (q.1, s :: q.2))

/-- An import action that does nothing (concrete instances below need one). -/
def impNop : ImpAction := fun _ _ st => .ok st

/-- The bytes covered by a list of raw matches. -/
def joinM (ms : List RawMatch) : List Nat :=
  (ms.map RawMatch.matched).flatten

/-- Column fold of `countRunes`/`tokenize`: the running count resets to 0 at
each line break and otherwise advances by one per decoded character. -/
def colFold (init : Nat) (rs : List Nat) : Nat :=
  rs.foldl (fun c r => if r == 10 then 0 else c + 1) init

/-- Modelled from the spec (amended): each emitted token is stamped with the
row and column just past its matched span, computed over the decoded
characters of all matched spans so far; a span the decoder rejects is a
failure. -/
def tokenizeSpec : List RawMatch → List Nat → Except Err (List Token)
  | [], _ => .ok []
  | m :: ms, crs =>
    match runesOf m.matched with
    | none => .error .invalidUtf8
    | some mrs =>
      if m.op = .opComment || m.op = .opWhitespace then
        tokenizeSpec ms (crs ++ mrs)
      else
        (tokenizeSpec ms (crs ++ mrs)).map (fun ts =>
          ⟨m.op, m.captured, m.matched, rowCount (crs ++ mrs),
            colCount (crs ++ mrs)⟩ :: ts)

/-! ### Concrete fixtures for the property-qualifier instance

A root (node 0) holding class `K` (node 1) and enum `Q` (node 2); the
analyzer is fed the property `x <Q> ;` inside the class. -/

def c4Heap : Heap :=
  ⟨[{ children := [1, 2],
      symbols := [{ value := [75], scope := some 0, node := some 1 },
                  { value := [81], scope := some 0, node := some 2 }] },
    { kind := .cls, parent := some 0, owner := some 1, value := [75] },
    { kind := .enm, parent := some 0, owner := some 2, value := [81] }]⟩

def c4St : St :=
  ⟨c4Heap, [mkIdentTok [120], ltTok, mkIdentTok [81], gtTok, semiTok]⟩

def c4H6 : Heap :=
  setValue (allocNode c4Heap (some 1) .prop).1 3 [120]

def c4Fq : Option Symbol :=
  some { value := [81], scope := some 0, node := some 2 }

def c4H7 : Heap :=
  setNode (setFlagsOpt c4H6 3 c4Fq) 1
    { getNode (setFlagsOpt c4H6 3 c4Fq) 1 with
      symbols := (getNode (setFlagsOpt c4H6 3 c4Fq) 1).symbols ++
        [{ value := [120], scope := some 1, node := some 3 }] }

/-! ### Concrete fixtures for the default-chain instance

The tree of the package's own test program: a root holding enum `MyEnum2`
(node 1, with property `y` = node 2) and class `MyClass` (node 3, with
property `C` = node 4); the analyzer is fed the property
`y = C | MyEnum2::y;` inside the class. -/

def c3Heap : Heap :=
  ⟨[{ children := [1, 3],
      symbols := [{ value := bts "MyEnum2", scope := some 0, node := some 1 },
                  { value := bts "MyClass", scope := some 0, node := some 3 }] },
    { kind := .enm, parent := some 0, owner := some 1, value := bts "MyEnum2",
      children := [2],
      symbols := [{ value := bts "y", scope := some 1, node := some 2 }] },
    { kind := .prop, parent := some 1, owner := some 2, value := bts "y" },
    { kind := .cls, parent := some 0, owner := some 3, value := bts "MyClass",
      children := [4],
      symbols := [{ value := bts "C", scope := some 3, node := some 4 }] },
    { kind := .prop, parent := some 3, owner := some 4, value := bts "C" }]⟩

def c3Toks : List Token :=
  mkIdentTok (bts "y") :: eqAssignTok ::
    (chainToks (bts "C", none) [(bts "MyEnum2", some (bts "y"))] ++ [semiTok])

def c3H6 : Heap :=
  setFlagsOpt (setValue (allocNode c3Heap (some 3) .prop).1 5 (bts "y")) 5 none

def c3H7 : Heap :=
  setNode c3H6 3 { getNode c3H6 3 with
    symbols := (getNode c3H6 3).symbols ++
      [{ value := bts "y", scope := some 3, node := some 5 }] }

def c3H9 : Heap :=
  setFlagsStr c3H7 5 []

def c3Syms : List Symbol :=
  [{ value := bts "C", scope := some 3, node := some 4 },
   { value := bts "y", scope := some 1, node := some 2 }]

/-! ### Basic heap lemmas -/

theorem length_setNode (h : Heap) (i : Nat) (d : NodeData) :
    (setNode h i d).nodes.length = h.nodes.length := by
  simp [setNode]

theorem getNode_setNode_self (h : Heap) {i : Nat} (d : NodeData)
    (hi : i < h.nodes.length) : getNode (setNode h i d) i = d := by
  simp [getNode, setNode, List.get?_eq_getElem?, List.getElem?_set_self',
    List.getElem?_eq_getElem hi]

theorem getNode_setNode_ne (h : Heap) {i j : Nat} (d : NodeData)
    (hij : i ≠ j) : getNode (setNode h i d) j = getNode h j := by
  simp [getNode, setNode, List.get?_eq_getElem?, List.getElem?_set_ne hij]

theorem setNode_oob (h : Heap) {i : Nat} (d : NodeData)
    (hi : h.nodes.length ≤ i) : setNode h i d = h := by
  simp [setNode, List.set_eq_of_length_le hi]

theorem setNode_setNode (h : Heap) (i : Nat) (d1 d2 : NodeData) :
    setNode (setNode h i d1) i d2 = setNode h i d2 := by
  simp [setNode, List.set_set]

theorem setNode_getNode (h : Heap) (i : Nat) :
    setNode h i (getNode h i) = h := by
  rcases lt_or_le i h.nodes.length with hi | hi
  · have hx : getNode h i = h.nodes[i] := by
      simp [getNode, List.get?_eq_getElem?, List.getElem?_eq_getElem hi]
    rw [hx]
    show (⟨h.nodes.set i h.nodes[i]⟩ : Heap) = h
    congr 1
    apply List.ext_getElem?
    intro j
    rw [List.getElem?_set]
    split
    · next hij => subst hij; simp [List.getElem?_eq_getElem hi]
    · rfl
  · exact setNode_oob h _ hi

/-! ### C6: `AddSymbol` -/

/-- C6.  `AddSymbol(s)` on node `N` fails exactly when `s` is nil, its name
is empty, or a symbol with that name already exists directly in `N`'s own
table (so a same-named symbol that lives only in an ancestor does not make it
fail), and on success the symbol is appended to `N`'s table with its scope
back-reference set to `N`. -/
theorem addSymbol_characterisation (h : Heap) (nid : Nat) (s : Option Symbol) :
    ((∃ e, addSymbol h nid s = .error e) ↔
      (s = none ∨ ∃ s', s = some s' ∧
        (s'.value = [] ∨
          (getNode h nid).symbols.any (fun t => t.value == s'.value) = true))) ∧
    (∀ s', s = some s' → s'.value ≠ [] →
      (getNode h nid).symbols.any (fun t => t.value == s'.value) = false →
      addSymbol h nid s = .ok (setNode h nid
        { getNode h nid with
          symbols := (getNode h nid).symbols ++ [{ s' with scope := some nid }] })) := by
  constructor
  · cases s with
    | none =>
      constructor
      · intro _
        exact Or.inl rfl
      · intro _
        exact ⟨.panicNilSymbol, rfl⟩
    | some s' =>
      simp only [addSymbol]
      by_cases hv : s'.value = []
      · rw [if_pos hv]
        exact ⟨fun _ => Or.inr ⟨s', rfl, Or.inl hv⟩,
          fun _ => ⟨.panicEmptySymbol, rfl⟩⟩
      · rw [if_neg hv]
        by_cases hd : (getNode h nid).symbols.any (fun t => t.value == s'.value) = true
        · rw [if_pos hd]
          exact ⟨fun _ => Or.inr ⟨s', rfl, Or.inr hd⟩,
            fun _ => ⟨.panicDupSymbol s'.value, rfl⟩⟩
        · rw [if_neg hd]
          constructor
          · rintro ⟨e, he⟩
            exact absurd he (by simp)
          · rintro (hno | ⟨s'', hs'', (hv' | hd')⟩)
            · exact absurd hno (by simp)
            · cases hs''
              exact absurd hv' hv
            · cases hs''
              exact absurd hd' hd
  · intro s' hs hv hd
    subst hs
    simp [addSymbol, hv, hd]

/-- C6 witness: adding `b` to node 1 succeeds although node 1's parent
(node 0) already holds a symbol named `b` — only the own table matters. -/
theorem addSymbol_characterisation_witness :
    addSymbol
      (⟨[{ symbols := [{ value := [98], scope := some 0 }] },
         { parent := some 0 }]⟩ : Heap) 1 (some { value := [98] }) =
    .ok (setNode
      (⟨[{ symbols := [{ value := [98], scope := some 0 }] },
         { parent := some 0 }]⟩ : Heap) 1
      { (getNode (⟨[{ symbols := [{ value := [98], scope := some 0 }] },
          { parent := some 0 }]⟩ : Heap) 1) with
        symbols := (getNode (⟨[{ symbols := [{ value := [98], scope := some 0 }] },
          { parent := some 0 }]⟩ : Heap) 1).symbols ++
          [{ value := [98], scope := some 1 }] }) :=
  (addSymbol_characterisation _ 1 _).2 { value := [98] } rfl
    (by decide) (by decide)

/-! ### C2: `ImportSymbols` -/

theorem importFold_step (g : Heap) (n : Nat) (s : Symbol) :
    (match addSymbol g n (some s) with
      | .ok hh' => hh'
      | .error _ => g) =
    (if s.value = [] then g
     else if (getNode g n).symbols.any (fun t => t.value == s.value) then g
     else setNode g n { getNode g n with
        symbols := (getNode g n).symbols ++ [{ s with scope := some n }] }) := by
  by_cases hv : s.value = []
  · simp [addSymbol, hv]
  · by_cases hd : (getNode g n).symbols.any (fun t => t.value == s.value) = true
    · simp [addSymbol, hv, hd]
    · simp only [Bool.not_eq_true] at hd
      simp [addSymbol, hv, hd]

theorem importFold_go (l : List Symbol) (n : Nat) :
    ∀ (g : Heap), n < g.nodes.length →
    (∀ s ∈ l, s.value ≠ []) →
    l.Pairwise (fun a b => a.value ≠ b.value) →
    l.foldl (fun hh s =>
        match addSymbol hh n (some s) with
        | .ok hh' => hh'
        | .error _ => hh) g =
    setNode g n { getNode g n with
      symbols := (getNode g n).symbols ++
        ((l.filter (fun s =>
            !((getNode g n).symbols.any (fun t => t.value == s.value)))).map
          (fun s => { s with scope := some n })) } := by
  induction l with
  | nil =>
    intro g _ _ _
    simp only [List.filter_nil, List.map_nil, List.append_nil, List.foldl_nil]
    exact (setNode_getNode g n).symm
  | cons s l ih =>
    intro g hn hne hpw
    have hsv : s.value ≠ [] := hne s (by simp)
    rw [List.foldl_cons, importFold_step, if_neg hsv]
    by_cases hd : (getNode g n).symbols.any (fun t => t.value == s.value) = true
    · rw [if_pos hd]
      rw [ih g hn (fun x hx => hne x (by simp [hx])) (List.Pairwise.of_cons hpw)]
      rw [List.filter_cons_of_neg (by simp [hd])]
    · simp only [Bool.not_eq_true] at hd
      rw [if_neg (by simp [hd])]
      set s' : Symbol := { s with scope := some n } with hs'
      set g' : Heap := setNode g n { getNode g n with
        symbols := (getNode g n).symbols ++ [s'] } with hg'
      have hn' : n < g'.nodes.length := by
        rw [hg', length_setNode]; exact hn
      have hgn' : getNode g' n = { getNode g n with
          symbols := (getNode g n).symbols ++ [s'] } := by
        rw [hg', getNode_setNode_self _ _ hn]
      rw [ih g' hn' (fun x hx => hne x (by simp [hx])) (List.Pairwise.of_cons hpw)]
      rw [hgn']
      have hpwh := (List.pairwise_cons.mp hpw).1
      have hfc : (l.filter (fun x =>
          !(((getNode g n).symbols ++ [s']).any (fun t => t.value == x.value)))) =
          (l.filter (fun x =>
          !((getNode g n).symbols.any (fun t => t.value == x.value)))) := by
        apply List.filter_congr
        intro x hx
        have hxv : s.value ≠ x.value := hpwh x hx
        simp only [List.any_append, List.any_cons, List.any_nil]
        have : (s'.value == x.value) = false := by
          rw [hs']
          simp only []
          exact beq_eq_false_iff_ne.mpr hxv
        simp [this]
      rw [hfc, setNode_setNode]
      rw [List.filter_cons_of_pos (by simp [hd])]
      simp [List.append_assoc]

/-- C2.  `ImportSymbols(other)` always returns normally: every symbol of
`other`'s table whose name is not already in `N`'s own table is appended to
`N`'s table (with its scope re-pointed to `N`), and every name collision is
swallowed — `N` keeps its original symbol and the imported duplicate is
dropped.  The hypotheses state what is invariant about Go tables: a
`map[string]*Symbol` cannot hold two symbols of the same name, and
`AddSymbol` (its only writer) rejects empty names. -/
theorem importSymbols_spec (h : Heap) (n o : Nat)
    (hn : n < h.nodes.length)
    (hne : ∀ s ∈ (getNode h o).symbols, s.value ≠ [])
    (hpw : (getNode h o).symbols.Pairwise (fun a b => a.value ≠ b.value)) :
    importSymbols h n o =
    setNode h n { getNode h n with
      symbols := (getNode h n).symbols ++
        (((getNode h o).symbols.filter (fun s =>
            !((getNode h n).symbols.any (fun t => t.value == s.value)))).map
          (fun s => { s with scope := some n })) } := by
  exact importFold_go _ n h hn hne hpw

/-- C2 witness: node 0 holds `a`; importing node 1's table `[a, c]` keeps
node 0's original `a`, drops the imported `a`, adds `c` re-scoped, and the
call returns normally. -/
theorem importSymbols_spec_witness :
    importSymbols
      (⟨[{ symbols := [{ value := [97], scope := some 0, node := some 7 }] },
         { symbols := [{ value := [97], scope := some 1 },
                       { value := [99], scope := some 1 }] }]⟩ : Heap) 0 1 =
    setNode
      (⟨[{ symbols := [{ value := [97], scope := some 0, node := some 7 }] },
         { symbols := [{ value := [97], scope := some 1 },
                       { value := [99], scope := some 1 }] }]⟩ : Heap) 0
      { (getNode (⟨[{ symbols := [{ value := [97], scope := some 0, node := some 7 }] },
          { symbols := [{ value := [97], scope := some 1 },
                        { value := [99], scope := some 1 }] }]⟩ : Heap) 0) with
        symbols := [{ value := [97], scope := some 0, node := some 7 },
                    { value := [99], scope := some 0 }] } := by
  rw [importSymbols_spec _ 0 1 (by decide) (by decide) (by decide)]
  rfl

/-! ### C1: where `FindSymbol(create = true)` places the new symbol -/

theorem any_eq_false_of_lookup_none {h : Heap} {nid : Nat} {v : List Nat}
    (hl : lookupSymbol h nid v = none) :
    (getNode h nid).symbols.any (fun t => t.value == v) = false := by
  rw [lookupSymbol, List.find?_eq_none] at hl
  simp only [List.any_eq_false]
  exact hl

theorem createSymbol_of_fresh {h : Heap} {nid : Nat} {v : List Nat}
    (hv : v ≠ []) (hl : lookupSymbol h nid v = none) :
    createSymbol h nid v =
      .ok (setNode h nid { getNode h nid with
          symbols := (getNode h nid).symbols ++
            [{ value := v, node := (getNode h nid).owner, scope := some nid }] },
        { value := v, node := (getNode h nid).owner, scope := some nid }) := by
  simp only [createSymbol, addSymbol, hv, if_false,
    any_eq_false_of_lookup_none hl, Bool.false_eq_true, ite_false]
  rfl

theorem findSymbolF_create_of_none :
    ∀ (f : Nat) (h : Heap) (nid : Nat) (v : List Nat), nid < f → v ≠ [] →
    findSymbolF f h nid v false = .ok (h, none) →
    findSymbolF f h nid v true =
      .ok (setNode h (topAncestorF f h nid) { getNode h (topAncestorF f h nid) with
          symbols := (getNode h (topAncestorF f h nid)).symbols ++
            [{ value := v, node := (getNode h (topAncestorF f h nid)).owner,
               scope := some (topAncestorF f h nid) }] },
        some { value := v, node := (getNode h (topAncestorF f h nid)).owner,
               scope := some (topAncestorF f h nid) }) := by
  intro f
  induction f with
  | zero =>
    intro h nid v hlt
    exact absurd hlt (Nat.not_lt_zero nid)
  | succ f ih =>
    intro h nid v hlt hv hnone
    cases hl : lookupSymbol h nid v with
    | some s =>
      simp only [findSymbolF, hl] at hnone
      exact absurd hnone (by simp)
    | none =>
      cases hp : (getNode h nid).parent with
      | none =>
        simp only [findSymbolF, hl, hp, topAncestorF, if_true]
        rw [createSymbol_of_fresh hv hl]
        simp [hp, Except.map]
      | some p =>
        by_cases hpl : p < nid
        · simp only [findSymbolF, hl, hp, if_pos hpl] at hnone
          rcases hrec : findSymbolF f h p v false with e | ⟨h', os⟩
          · rw [hrec] at hnone
            exact absurd hnone (by simp)
          · cases os with
            | some s =>
              rw [hrec] at hnone
              exact absurd hnone (by simp)
            | none =>
              rw [hrec] at hnone
              simp only [Bool.false_eq_true, if_false, Except.ok.injEq,
                Prod.mk.injEq] at hnone
              obtain ⟨hh, -⟩ := hnone
              subst hh
              have hplt : p < f := lt_of_lt_of_le hpl (Nat.lt_succ_iff.mp hlt)
              have hr := ih _ p v hplt hv hrec
              simp only [findSymbolF, hl, hp, if_pos hpl, hr, topAncestorF]
        · simp only [findSymbolF, hl, hp, if_neg hpl, topAncestorF, if_true]
          rw [createSymbol_of_fresh hv hl]
          simp [hp, Except.map]

/-- C1 (amended).  When `FindSymbol(v, create = true)` exhausts `N`'s table
and the whole parent chain, the placeholder symbol is declared in the *last*
node of the chain — for the analyzer that is the root — not in the node
where the search began (whose table is unchanged whenever it is not that
top node); the placeholder's tree-node target is the top node's owner, which
is nil for the plain root nodes the analyzer creates. -/
theorem findSymbol_create_places_in_top (h : Heap) (nid : Nat) (v : List Nat)
    (hv : v ≠ []) (hnone : findSymbol h nid v false = .ok (h, none)) :
    findSymbol h nid v true =
      .ok (setNode h (topAncestor h nid) { getNode h (topAncestor h nid) with
          symbols := (getNode h (topAncestor h nid)).symbols ++
            [{ value := v, node := (getNode h (topAncestor h nid)).owner,
               scope := some (topAncestor h nid) }] },
        some { value := v, node := (getNode h (topAncestor h nid)).owner,
               scope := some (topAncestor h nid) }) ∧
    (nid ≠ topAncestor h nid →
      (getNode (setNode h (topAncestor h nid) { getNode h (topAncestor h nid) with
          symbols := (getNode h (topAncestor h nid)).symbols ++
            [{ value := v, node := (getNode h (topAncestor h nid)).owner,
               scope := some (topAncestor h nid) }] }) nid).symbols =
        (getNode h nid).symbols) := by
  refine ⟨findSymbolF_create_of_none (nid + 1) h nid v (Nat.lt_succ_self nid) hv hnone, ?_⟩
  intro hne
  rw [getNode_setNode_ne h _ (fun hh => hne hh.symm)]

/-- C1 counterexample: node 1 (child of the root node 0), name `v` unknown
everywhere.  The claim puts the new placeholder in node 1's table; the code
puts it in the root's table (node 1's table stays empty). -/
theorem findSymbol_create_in_start_counterexample :
    findSymbol (⟨[{}, { parent := some 0 }]⟩ : Heap) 1 [118] true =
      .ok (⟨[{ symbols := [{ value := [118], scope := some 0 }] },
             { parent := some 0 }]⟩,
           some { value := [118], scope := some 0 }) ∧
    (getNode (⟨[{ symbols := [{ value := [118], scope := some 0 }] },
          { parent := some 0 }]⟩ : Heap) 1).symbols = [] ∧
    (getNode (⟨[{ symbols := [{ value := [118], scope := some 0 }] },
          { parent := some 0 }]⟩ : Heap) 0).symbols =
      [{ value := [118], scope := some 0 }] := by
  decide

/-- C1 witness: the amended theorem applied to the two-node heap; the top
ancestor of node 1 is node 0 and the placeholder lands there. -/
theorem findSymbol_create_places_in_top_witness :
    findSymbol (⟨[{}, { parent := some 0 }]⟩ : Heap) 1 [119] true =
      .ok (setNode (⟨[{}, { parent := some 0 }]⟩ : Heap)
            (topAncestor (⟨[{}, { parent := some 0 }]⟩ : Heap) 1)
            { getNode (⟨[{}, { parent := some 0 }]⟩ : Heap)
                (topAncestor (⟨[{}, { parent := some 0 }]⟩ : Heap) 1) with
              symbols := (getNode (⟨[{}, { parent := some 0 }]⟩ : Heap)
                  (topAncestor (⟨[{}, { parent := some 0 }]⟩ : Heap) 1)).symbols ++
                [{ value := [119],
                   node := (getNode (⟨[{}, { parent := some 0 }]⟩ : Heap)
                     (topAncestor (⟨[{}, { parent := some 0 }]⟩ : Heap) 1)).owner,
                   scope := some (topAncestor (⟨[{}, { parent := some 0 }]⟩ : Heap) 1) }] },
           some { value := [119],
                  node := (getNode (⟨[{}, { parent := some 0 }]⟩ : Heap)
                    (topAncestor (⟨[{}, { parent := some 0 }]⟩ : Heap) 1)).owner,
                  scope := some (topAncestor (⟨[{}, { parent := some 0 }]⟩ : Heap) 1) }) ∧
    (1 ≠ topAncestor (⟨[{}, { parent := some 0 }]⟩ : Heap) 1 →
      (getNode (setNode (⟨[{}, { parent := some 0 }]⟩ : Heap)
          (topAncestor (⟨[{}, { parent := some 0 }]⟩ : Heap) 1)
          { getNode (⟨[{}, { parent := some 0 }]⟩ : Heap)
              (topAncestor (⟨[{}, { parent := some 0 }]⟩ : Heap) 1) with
            symbols := (getNode (⟨[{}, { parent := some 0 }]⟩ : Heap)
                (topAncestor (⟨[{}, { parent := some 0 }]⟩ : Heap) 1)).symbols ++
              [{ value := [119],
                 node := (getNode (⟨[{}, { parent := some 0 }]⟩ : Heap)
                   (topAncestor (⟨[{}, { parent := some 0 }]⟩ : Heap) 1)).owner,
                 scope := some (topAncestor (⟨[{}, { parent := some 0 }]⟩ : Heap) 1) }] }) 1).symbols =
        (getNode (⟨[{}, { parent := some 0 }]⟩ : Heap) 1).symbols) :=
  findSymbol_create_places_in_top (⟨[{}, { parent := some 0 }]⟩ : Heap) 1 [119]
    (by decide) (by decide)

/-! ### C10: a nil resolution in a default chain panics -/

/-- C10.  Analyzing `y = A::b;` inside class `K` where `A` is unknown: the
chain's non-final component is looked up with `create = false`,
`FindNestedSymbol` returns nil, and `PropertyNode.AddDefault` panics —
`analyzeProperty` aborts with the panic, not with a positioned
unexpected-token error. -/
theorem analyzeProperty_nil_default_panics :
    analyzeProperty 1
      ⟨⟨[{ children := [1],
           symbols := [{ value := [75], scope := some 0, node := some 1 }] },
         { kind := .cls, parent := some 0, owner := some 1, value := [75] }]⟩,
        [mkIdentTok [121], eqAssignTok, mkIdentTok [65], nsSepTok,
         mkIdentTok [98], semiTok]⟩ =
    .error .panicNilDefault := by
  decide

/-! ### C7: non-`import` preprocessor directives -/

/-- C7 counterexample: the claim says a top-level preprocessor token whose
value is not `import` is accepted without error; but the analyzer expects a
string token after *every* preprocessor token, so `#foo` followed by `;`
produces a positioned unexpected-token error, and `#foo` at the end of input
an EOF error. -/
theorem handlePreprocess_accepts_counterexample :
    handleToken impNop { op := .opPreprocess, value := [102, 111, 111] } 0
      ⟨⟨[{}]⟩, [semiTok]⟩ = .error (.unexpectedTok 0 0 []) ∧
    handleToken impNop { op := .opPreprocess, value := [102, 111, 111] } 0
      ⟨⟨[{}]⟩, []⟩ = .error .eofErr := by
  decide

/-- C7 (amended).  Every preprocessor token must be followed by a string
token; given that, a directive whose value is not `import` is accepted with
no defined effect — the string is consumed, the import action never runs
(the result is the same for every action `imp`), and the node tree is left
unchanged. -/
theorem handleToken_nonimport_noop (imp : ImpAction) (t s : Token)
    (root : Nat) (st : St) (rest : List Token)
    (hop : t.op = .opPreprocess) (hval : t.value ≠ bts "import")
    (htoks : st.toks = s :: rest) (hs : s.op = .opString) :
    handleToken imp t root st = .ok { heap := st.heap, toks := rest } := by
  obtain ⟨tp, tv, traw, trow, tcol⟩ := t
  obtain ⟨heap, toks⟩ := st
  simp only at hop htoks
  subst hop
  subst htoks
  simp only at hval
  simp [handleToken, handlePreprocessToken, expectOp, hs, hval]

/-- C7 witness: `#foo "x"` is accepted, consumes the string, and leaves the
single-node heap untouched. -/
theorem handleToken_nonimport_noop_witness :
    handleToken impNop { op := .opPreprocess, value := [102, 111, 111] } 0
      ⟨⟨[{}]⟩, [{ op := .opString, value := [120] }]⟩ =
      .ok { heap := ⟨[{}]⟩, toks := [] } :=
  handleToken_nonimport_noop impNop _ _ 0 _ []
    rfl (by decide) rfl rfl

/-! ### C9: token equality and keyword matching -/

theorem equalFold_iff_map :
    ∀ l1 l2 : List Nat, equalFold l1 l2 = true ↔ l1.map foldB = l2.map foldB := by
  intro l1
  induction l1 with
  | nil =>
    intro l2
    cases l2 <;> simp [equalFold]
  | cons a as ih =>
    intro l2
    cases l2 with
    | nil => simp [equalFold]
    | cons b bs =>
      simp [equalFold, ih bs, Bool.and_eq_true, beq_iff_eq]

/-- C9 counterexample: `CLASS` and `class` are equal under `Token.Equal`,
yet the analyzer treats them differently — `class` starts class analysis
(here failing with EOF because nothing follows), while `CLASS` falls through
to the invalid-token error.  So the `class` keyword is *not* matched with the
case-insensitive token equality. -/
theorem keyword_case_insensitive_counterexample :
    tokenEqual { op := .opIdentifier, value := [67, 76, 65, 83, 83] }
      { op := .opIdentifier, value := [99, 108, 97, 115, 115] } = true ∧
    handleIdentifierToken { op := .opIdentifier, value := [99, 108, 97, 115, 115] }
      0 ⟨⟨[{}]⟩, []⟩ = .error .eofErr ∧
    handleIdentifierToken { op := .opIdentifier, value := [67, 76, 65, 83, 83] }
      0 ⟨⟨[{}]⟩, []⟩ = .error (.unexpectedTok 0 0 []) := by
  decide

/-- C9 (amended).  `Token.Equal` holds iff the classification tags are equal
and the value bytes are equal case-insensitively, and the analyzer matches
expected punctuation and the `flags` / `obsolete` keywords through it
(`optionalToken` / `expectToken`) — but the keywords `class`, `enum` (and
the `import` directive value) are matched by exact byte comparison, not by
this equality. -/
theorem tokenEqual_usage_amended :
    (∀ t1 t2 : Token, tokenEqual t1 t2 = true ↔
        (t1.op = t2.op ∧ t1.value.map foldB = t2.value.map foldB)) ∧
    (∀ (t : Token) (st : St) (rest : List Token), st.toks = t :: rest →
        tokenEqual flagsToken t = true →
        optionalTokenE flagsToken st = (some t, { st with toks := rest })) ∧
    (∀ (t : Token) (root : Nat) (st : St), t.op = .opIdentifier →
        t.value ≠ bts "class" → t.value ≠ bts "enum" →
        handleIdentifierToken t root st =
          .error (.unexpectedTok t.row t.col t.raw)) := by
  refine ⟨?_, ?_, ?_⟩
  · intro t1 t2
    simp [tokenEqual, Bool.and_eq_true, beq_iff_eq, equalFold_iff_map]
  · intro t st rest htoks heq
    simp [optionalTokenE, htoks, heq]
  · intro t root st hop hc he
    simp [handleIdentifierToken, hc, he]

/-- C9 witness: `FLAGS` is accepted for the `flags` keyword through the
case-insensitive equality, while `cLass` — case-insensitively equal to
`class` but not byte-equal — is rejected as an invalid token. -/
theorem tokenEqual_usage_amended_witness :
    optionalTokenE flagsToken
      ⟨⟨[]⟩, [{ op := .opIdentifier, value := [70, 76, 65, 71, 83] }]⟩ =
      (some { op := .opIdentifier, value := [70, 76, 65, 71, 83] },
        { heap := ⟨[]⟩, toks := [] }) ∧
    handleIdentifierToken { op := .opIdentifier, value := [99, 76, 97, 115, 115] }
      0 ⟨⟨[]⟩, []⟩ = .error (.unexpectedTok 0 0 []) :=
  ⟨tokenEqual_usage_amended.2.1 _ _ [] rfl (by decide),
   tokenEqual_usage_amended.2.2 _ 0 _ rfl (by decide) (by decide)⟩

/-! ### `FindSymbol` infrastructure: fuel invariance, success of `create`,
length preservation, and resolution from a fresh child node -/

theorem findSymbolF_fuel_invariant :
    ∀ (f1 f2 : Nat) (h : Heap) (nid : Nat) (v : List Nat) (c : Bool),
      nid < f1 → nid < f2 →
      findSymbolF f1 h nid v c = findSymbolF f2 h nid v c := by
  intro f1
  induction f1 with
  | zero =>
    intro f2 h nid v c h1
    exact absurd h1 (Nat.not_lt_zero nid)
  | succ g1 ih =>
    intro f2 h nid v c h1 h2
    cases f2 with
    | zero => exact absurd h2 (Nat.not_lt_zero nid)
    | succ g2 =>
      cases hl : lookupSymbol h nid v with
      | some s => simp only [findSymbolF, hl]
      | none =>
        cases hp : (getNode h nid).parent with
        | none => simp only [findSymbolF, hl, hp]
        | some p =>
          by_cases hpl : p < nid
          · have hrec := ih g2 h p v c (by omega) (by omega)
            simp only [findSymbolF, hl, hp, if_pos hpl, hrec]
          · simp only [findSymbolF, hl, hp, if_neg hpl]

theorem findSymbolF_true_not_none :
    ∀ (f : Nat) (h : Heap) (nid : Nat) (v : List Nat) (h' : Heap), nid < f →
      findSymbolF f h nid v true ≠ .ok (h', none) := by
  intro f
  induction f with
  | zero =>
    intro h nid v h' h1
    exact absurd h1 (Nat.not_lt_zero nid)
  | succ g ih =>
    intro h nid v h' hlt
    cases hl : lookupSymbol h nid v with
    | some s =>
      intro hc
      simp only [findSymbolF, hl] at hc
      simp at hc
    | none =>
      have hcreate : ∀ (hh : Heap),
          (createSymbol hh nid v).map (fun q => (q.1, some q.2)) ≠
            .ok (h', none) := by
        intro hh hc
        rcases hcs : createSymbol hh nid v with e | pr
        · rw [hcs] at hc
          exact absurd hc (by simp [Except.map])
        · rw [hcs] at hc
          simp [Except.map] at hc
      cases hp : (getNode h nid).parent with
      | none =>
        simp only [findSymbolF, hl, hp, if_true]
        exact hcreate h
      | some p =>
        by_cases hpl : p < nid
        · simp only [findSymbolF, hl, hp, if_pos hpl]
          rcases hr : findSymbolF g h p v true with e | ⟨h2, os⟩
          · simp
          · cases os with
            | some s => simp
            | none => exact absurd hr (ih h p v h2 (by omega))
        · simp only [findSymbolF, hl, hp, if_neg hpl, if_true]
          exact hcreate h

theorem addSymbol_ok_shape {h : Heap} {nid : Nat} {s : Option Symbol}
    {h' : Heap} (hs : addSymbol h nid s = .ok h') :
    ∃ s', s = some s' ∧ h' = setNode h nid { getNode h nid with
      symbols := (getNode h nid).symbols ++ [{ s' with scope := some nid }] } := by
  cases s with
  | none => exact absurd hs (by simp [addSymbol])
  | some s' =>
    refine ⟨s', rfl, ?_⟩
    by_cases hv : s'.value = []
    · exact absurd hs (by simp [addSymbol, hv])
    · by_cases hd : (getNode h nid).symbols.any (fun t => t.value == s'.value) = true
      · exact absurd hs (by simp [addSymbol, hv, hd])
      · simp only [addSymbol, hv, hd, Bool.not_eq_true, Bool.false_eq_true,
          if_false, Except.ok.injEq] at hs
        exact hs.symm

theorem length_addSymbol {h : Heap} {nid : Nat} {s : Option Symbol}
    {h' : Heap} (hs : addSymbol h nid s = .ok h') :
    h'.nodes.length = h.nodes.length := by
  obtain ⟨s', -, rfl⟩ := addSymbol_ok_shape hs
  exact length_setNode _ _ _

theorem length_createSymbol {h : Heap} {nid : Nat} {v : List Nat}
    {h' : Heap} {s : Symbol} (hs : createSymbol h nid v = .ok (h', s)) :
    h'.nodes.length = h.nodes.length := by
  rcases ha : addSymbol h nid (some { value := v, node := (getNode h nid).owner }) with e | h2
  · rw [createSymbol, ha] at hs
    exact absurd hs (by simp [Except.map])
  · rw [createSymbol, ha] at hs
    simp only [Except.map, Except.ok.injEq, Prod.mk.injEq] at hs
    rw [← hs.1]
    exact length_addSymbol ha

theorem length_findSymbolF :
    ∀ (f : Nat) (h : Heap) (nid : Nat) (v : List Nat) (c : Bool)
      (h' : Heap) (os : Option Symbol),
      findSymbolF f h nid v c = .ok (h', os) →
      h'.nodes.length = h.nodes.length := by
  intro f
  induction f with
  | zero =>
    intro h nid v c h' os hs
    simp only [findSymbolF, Except.ok.injEq, Prod.mk.injEq] at hs
    rw [← hs.1]
  | succ g ih =>
    intro h nid v c h' os hs
    have hcreate : ∀ (hh : Heap),
        (createSymbol hh nid v).map (fun q => (q.1, some q.2)) = .ok (h', os) →
        h'.nodes.length = hh.nodes.length := by
      intro hh hc
      rcases hcs : createSymbol hh nid v with e | ⟨h2, s2⟩
      · rw [hcs] at hc
        exact absurd hc (by simp [Except.map])
      · rw [hcs] at hc
        simp only [Except.map, Except.ok.injEq, Prod.mk.injEq] at hc
        rw [← hc.1]
        exact length_createSymbol hcs
    cases hl : lookupSymbol h nid v with
    | some s =>
      simp only [findSymbolF, hl, Except.ok.injEq, Prod.mk.injEq] at hs
      rw [← hs.1]
    | none =>
      cases hp : (getNode h nid).parent with
      | none =>
        simp only [findSymbolF, hl, hp] at hs
        cases c with
        | true => exact hcreate h (by simpa using hs)
        | false =>
          simp only [Bool.false_eq_true, if_false, Except.ok.injEq,
            Prod.mk.injEq] at hs
          rw [← hs.1]
      | some p =>
        by_cases hpl : p < nid
        · simp only [findSymbolF, hl, hp, if_pos hpl] at hs
          rcases hr : findSymbolF g h p v c with e | ⟨h2, os2⟩
          · rw [hr] at hs
            exact absurd hs (by simp)
          · rw [hr] at hs
            have h2len := ih h p v c h2 os2 hr
            cases os2 with
            | some s =>
              simp only [Except.ok.injEq, Prod.mk.injEq] at hs
              rw [← hs.1]
              exact h2len
            | none =>
              cases c with
              | true =>
                have := hcreate h2 (by simpa using hs)
                rw [this]
                exact h2len
              | false =>
                simp only [Bool.false_eq_true, if_false, Except.ok.injEq,
                  Prod.mk.injEq] at hs
                rw [← hs.1]
                exact h2len
        · simp only [findSymbolF, hl, hp, if_neg hpl] at hs
          cases c with
          | true => exact hcreate h (by simpa using hs)
          | false =>
            simp only [Bool.false_eq_true, if_false, Except.ok.injEq,
              Prod.mk.injEq] at hs
            rw [← hs.1]

theorem length_findSymbol {h : Heap} {nid : Nat} {v : List Nat} {c : Bool}
    {h' : Heap} {os : Option Symbol}
    (hs : findSymbol h nid v c = .ok (h', os)) :
    h'.nodes.length = h.nodes.length :=
  length_findSymbolF _ h nid v c h' os hs

theorem length_findNestedSymbol :
    ∀ (path : List (List Nat)) (h : Heap) (nid : Nat)
      (h' : Heap) (os : Option Symbol),
      findNestedSymbol h nid path = .ok (h', os) →
      h'.nodes.length = h.nodes.length := by
  intro path
  induction path with
  | nil =>
    intro h nid h' os hs
    simp only [findNestedSymbol, Except.ok.injEq, Prod.mk.injEq] at hs
    rw [← hs.1]
  | cons v rest ih =>
    intro h nid h' os hs
    cases rest with
    | nil => exact length_findSymbol hs
    | cons v' rest' =>
      simp only [findNestedSymbol] at hs
      rcases hr : findSymbol h nid v false with e | ⟨h2, os2⟩
      · rw [hr] at hs
        exact absurd hs (by simp)
      · rw [hr] at hs
        have h2len := length_findSymbol hr
        cases os2 with
        | none =>
          simp only [Except.ok.injEq, Prod.mk.injEq] at hs
          rw [← hs.1]
          exact h2len
        | some s =>
          simp only [] at hs
          cases hn : s.node with
          | some nxt =>
            rw [hn] at hs
            rw [ih h2 nxt h' os hs]
            exact h2len
          | none =>
            rw [hn] at hs
            simp only [] at hs
            cases hsc : s.scope with
            | some nxt =>
              rw [hsc] at hs
              rw [ih h2 nxt h' os hs]
              exact h2len
            | none =>
              rw [hsc] at hs
              exact absurd hs (by simp)

/-- Resolving from a freshly created child node (empty symbol table) is the
same as resolving from its parent, for both values of `create`. -/
theorem findSymbol_fresh_child (h : Heap) (pid root : Nat) (v : List Nat)
    (c : Bool)
    (hsym : (getNode h pid).symbols = [])
    (hpar : (getNode h pid).parent = some root)
    (hlt : root < pid) :
    findSymbol h pid v c = findSymbol h root v c := by
  have hl : lookupSymbol h pid v = none := by
    simp [lookupSymbol, hsym]
  show findSymbolF (pid + 1) h pid v c = findSymbol h root v c
  simp only [findSymbolF, hl, hpar, if_pos hlt]
  rw [findSymbolF_fuel_invariant pid (root + 1) h root v c (by omega)
    (by omega)]
  conv_rhs => rw [findSymbol]
  rcases hr : findSymbolF (root + 1) h root v c with e | ⟨h2, os⟩
  · rfl
  · cases os with
    | some s => rfl
    | none =>
      cases c with
      | false => rfl
      | true => exact absurd hr (findSymbolF_true_not_none _ h root v h2 (by omega))

/-- `FindNestedSymbol` from a fresh child equals `FindNestedSymbol` from its
parent. -/
theorem findNestedSymbol_fresh_child (h : Heap) (pid root : Nat)
    (path : List (List Nat))
    (hsym : (getNode h pid).symbols = [])
    (hpar : (getNode h pid).parent = some root)
    (hlt : root < pid) :
    findNestedSymbol h pid path = findNestedSymbol h root path := by
  cases path with
  | nil => rfl
  | cons v rest =>
    cases rest with
    | nil => exact findSymbol_fresh_child h pid root v true hsym hpar hlt
    | cons v' rest' =>
      simp only [findNestedSymbol]
      rw [findSymbol_fresh_child h pid root v false hsym hpar hlt]

/-! ### Allocation and token-shape lemmas -/

theorem except_bind_ok {ε α β : Type} (a : α) (f : α → Except ε β) :
    ((Except.ok a : Except ε α) >>= f) = f a := rfl

theorem except_bind_error {ε α β : Type} (e : ε) (f : α → Except ε β) :
    ((Except.error e : Except ε α) >>= f) = .error e := rfl

theorem except_pure {ε α : Type} (a : α) :
    (pure a : Except ε α) = .ok a := rfl

theorem allocNode_snd (h : Heap) (par : Option Nat) (k : NodeKind) :
    (allocNode h par k).2 = h.nodes.length := by
  cases par <;> rfl

theorem allocNode_fst_length (h : Heap) (p : Nat) (k : NodeKind) :
    (allocNode h (some p) k).1.nodes.length = h.nodes.length + 1 := by
  simp [allocNode, setNode]

theorem getNode_append_last (h : Heap) (nd : NodeData) :
    getNode ⟨h.nodes ++ [nd]⟩ h.nodes.length = nd := by
  simp [getNode, List.get?_eq_getElem?, List.getElem?_append_right (le_refl _)]

theorem getNode_allocNode_self (h : Heap) (p : Nat) (k : NodeKind)
    (hp : p < h.nodes.length) :
    getNode (allocNode h (some p) k).1 h.nodes.length =
      { kind := k, parent := some p,
        owner := if k = .plain then none else some h.nodes.length } := by
  show getNode (setNode ⟨h.nodes ++ [_]⟩ p _) h.nodes.length = _
  rw [getNode_setNode_ne _ _ (by omega)]
  exact getNode_append_last h _

theorem tokenValues_nsIdTokList (q : NsId) :
    tokenValues (nsIdTokList q) = nsIdPath q := by
  obtain ⟨a, b⟩ := q
  cases b <;> rfl

theorem gni_on_nsIdToks (h : Heap) (q : NsId) (r : List Token)
    (hr : ∀ r0 rs, r = r0 :: rs → r0.op ≠ .opNamespace) :
    getNamespacedIdentifier ⟨h, nsIdToks q ++ r⟩ =
      .ok (nsIdTokList q, ⟨h, r⟩) := by
  obtain ⟨a, b⟩ := q
  cases b with
  | none =>
    cases r with
    | nil =>
      simp [getNamespacedIdentifier, expectOp, optionalOp, nsIdToks,
        mkIdentTok, nsIdTokList, except_bind_ok, except_pure]
    | cons r0 rs =>
      have hr0 := hr r0 rs rfl
      simp [getNamespacedIdentifier, expectOp, optionalOp, nsIdToks,
        mkIdentTok, nsIdTokList, except_bind_ok, except_pure, hr0]
  | some b2 =>
    simp [getNamespacedIdentifier, expectOp, optionalOp, nsIdToks, nsSepTok,
      mkIdentTok, nsIdTokList, except_bind_ok, except_pure]

theorem gqi_on_qualToks (h : Heap) (q : NsId) (r : List Token) :
    getQualifierIdentifier ⟨h, ltTok :: (nsIdToks q ++ gtTok :: r)⟩ =
      .ok (nsIdTokList q, ⟨h, r⟩) := by
  have h1 : tokenEqual openQualifierToken ltTok = true := by decide
  have h2 : tokenEqual closeQualifierToken gtTok = true := by decide
  have h3 := gni_on_nsIdToks h q (gtTok :: r)
    (fun r0 rs hrr => by cases hrr; decide)
  simp [getQualifierIdentifier, optionalTokenE, expectTokenE, h1, h2, h3,
    except_bind_ok, except_pure]

theorem gqi_no_qualifier (h : Heap) (t : Token) (rest : List Token)
    (ht : tokenEqual openQualifierToken t = false) :
    getQualifierIdentifier ⟨h, t :: rest⟩ = .ok ([], ⟨h, t :: rest⟩) := by
  simp [getQualifierIdentifier, optionalTokenE, ht]

theorem expectOp_cons_ok {t : Token} {op : OpCode} (h : Heap)
    (rest : List Token) (ht : t.op = op) :
    expectOp op ⟨h, t :: rest⟩ = .ok (t, ⟨h, rest⟩) := by
  simp [expectOp, ht]

theorem optionalOp_cons_none {t : Token} {op : OpCode} (h : Heap)
    (rest : List Token) (ht : ¬ t.op = op) :
    optionalOp op ⟨h, t :: rest⟩ = (none, ⟨h, t :: rest⟩) := by
  simp [optionalOp, ht]

theorem optionalOp_cons_some {t : Token} {op : OpCode} (h : Heap)
    (rest : List Token) (ht : t.op = op) :
    optionalOp op ⟨h, t :: rest⟩ = (some t, ⟨h, rest⟩) := by
  simp [optionalOp, ht]

theorem optionalTokenE_cons_none {t1 t : Token} (h : Heap)
    (rest : List Token) (ht : tokenEqual t1 t = false) :
    optionalTokenE t1 ⟨h, t :: rest⟩ = (none, ⟨h, t :: rest⟩) := by
  simp [optionalTokenE, ht]

theorem optionalTokenE_cons_some {t1 t : Token} (h : Heap)
    (rest : List Token) (ht : tokenEqual t1 t = true) :
    optionalTokenE t1 ⟨h, t :: rest⟩ = (some t, ⟨h, rest⟩) := by
  simp [optionalTokenE, ht]

theorem optionalTokenE_nil (t1 : Token) (h : Heap) :
    optionalTokenE t1 ⟨h, []⟩ = (none, ⟨h, []⟩) := rfl

/-! ### C4: property qualifier resolution -/

/-- C4.  For a property `x <Q>;` (or `x <A::b>;`), the qualifier is resolved
with `FindNestedSymbol` and the result equals the resolution against the
property node itself: the property node is created fresh with an empty table
whose parent is the enclosing class/enum node, so the two resolutions agree
exactly — in particular forward references create-and-resolve the same
placeholder either way.  The resolved symbol is stored in the property's
`FlagsOpt` field.  (`h6`/`fq` name the resolution's result, `h7` the heap
after the property's own symbol is added to the enclosing scope.) -/
theorem analyzeProperty_qualifier_resolution
    (st : St) (root : Nat) (t1 : Token) (q : NsId)
    (h6 : Heap) (fq : Option Symbol) (h7 : Heap)
    (hroot : root < st.heap.nodes.length)
    (ht1 : t1.op = .opIdentifier)
    (htoks : st.toks = t1 :: ltTok :: (nsIdToks q ++ gtTok :: [semiTok]))
    (hres : findNestedSymbol
        (setValue (allocNode st.heap (some root) .prop).1
          st.heap.nodes.length t1.value)
        root (nsIdPath q) = .ok (h6, fq))
    (hadd : addSymbol (setFlagsOpt h6 st.heap.nodes.length fq)
        root (some (nodeSymbol
          (setFlagsOpt h6 st.heap.nodes.length fq)
          st.heap.nodes.length)) = .ok h7) :
    analyzeProperty root st =
      .ok ⟨setFlagsStr h7 st.heap.nodes.length [], []⟩ ∧
    findNestedSymbol
        (setValue (allocNode st.heap (some root) .prop).1
          st.heap.nodes.length t1.value)
        st.heap.nodes.length (nsIdPath q) = .ok (h6, fq) ∧
    (getNode (setFlagsStr h7 st.heap.nodes.length [])
        st.heap.nodes.length).flagsOpt = fq := by
  obtain ⟨hp, toks⟩ := st
  simp only at htoks
  subst htoks
  simp only at hroot hres hadd ⊢
  have hlen5 : (setValue (allocNode hp (some root) .prop).1
      hp.nodes.length t1.value).nodes.length = hp.nodes.length + 1 := by
    rw [setValue, length_setNode, allocNode_fst_length]
  have hnode5 : getNode (setValue (allocNode hp (some root) .prop).1
      hp.nodes.length t1.value) hp.nodes.length =
      { kind := .prop, parent := some root, owner := some hp.nodes.length,
        value := t1.value } := by
    rw [setValue, getNode_setNode_self _ _ (by rw [allocNode_fst_length]; omega)]
    rw [getNode_allocNode_self hp root .prop hroot]
    rfl
  have hlen6 : h6.nodes.length = hp.nodes.length + 1 := by
    rw [length_findNestedSymbol _ _ _ _ _ hres, hlen5]
  have hlen7 : h7.nodes.length = hp.nodes.length + 1 := by
    rw [length_addSymbol hadd, setFlagsOpt, length_setNode, hlen6]
  refine ⟨?_, ?_, ?_⟩
  · have e1 := @expectOp_cons_ok t1 .opIdentifier
      (allocNode hp (some root) .prop).1
      (ltTok :: (nsIdToks q ++ [gtTok, semiTok])) ht1
    have e2 := gqi_on_qualToks (allocNode hp (some root) .prop).1 q [semiTok]
    have e3 := @optionalOp_cons_none semiTok .opIdentifier
      (allocNode hp (some root) .prop).1 [] (by decide)
    have e5 := @optionalTokenE_cons_none assignmentToken semiTok
      (setFlagsStr h7 hp.nodes.length []) [] (by decide)
    have e6 := @expectOp_cons_ok semiTok .opTerminator
      (setFlagsStr h7 hp.nodes.length []) [] (by decide)
    have e7 := optionalTokenE_nil obsoleteToken (setFlagsStr h7 hp.nodes.length [])
    simp only [analyzeProperty, allocNode_snd, except_bind_ok, except_bind_error,
      except_pure, e1, e2, e3, tokenValues_nsIdTokList, hres, hadd, e5, e6, e7,
      ne_eq]
    simp
  · rw [findNestedSymbol_fresh_child _ hp.nodes.length root (nsIdPath q)
      (by rw [hnode5]) (by rw [hnode5]) hroot]
    exact hres
  · rw [setFlagsStr, getNode_setNode_self _ _ (by omega)]
    obtain ⟨s7, -, rfl⟩ := addSymbol_ok_shape hadd
    rw [getNode_setNode_ne _ _ (by omega)]
    rw [setFlagsOpt, getNode_setNode_self _ _ (by omega)]

/-! ### Frame lemmas: a property's default list never influences symbol
resolution.  `setDflt` commutes with every operation `FindSymbol` performs,
which lets the analyzer's in-place `AddDefault` writes be related to the
side-effect-free chain resolution `resolveChainSpec`. -/

theorem heap_ext (h1 h2 : Heap) (hlen : h1.nodes.length = h2.nodes.length)
    (hget : ∀ j, j < h1.nodes.length → getNode h1 j = getNode h2 j) :
    h1 = h2 := by
  obtain ⟨n1⟩ := h1
  obtain ⟨n2⟩ := h2
  simp only at hlen hget
  congr 1
  apply List.ext_getElem hlen
  intro j hj1 hj2
  have hg := hget j hj1
  simp only [getNode, List.get?_eq_getElem?, List.getElem?_eq_getElem hj1,
    List.getElem?_eq_getElem hj2, Option.getD_some] at hg
  exact hg

theorem length_setDflt (h : Heap) (pid : Nat) (l : List Symbol) :
    (setDflt h pid l).nodes.length = h.nodes.length :=
  length_setNode _ _ _

theorem getNode_setDflt_fields (h : Heap) (pid : Nat) (l : List Symbol)
    (nid : Nat) :
    (getNode (setDflt h pid l) nid).symbols = (getNode h nid).symbols ∧
    (getNode (setDflt h pid l) nid).parent = (getNode h nid).parent ∧
    (getNode (setDflt h pid l) nid).owner = (getNode h nid).owner := by
  by_cases hp : pid < h.nodes.length
  · by_cases hn : nid = pid
    · subst hn
      rw [setDflt, getNode_setNode_self _ _ hp]
      exact ⟨rfl, rfl, rfl⟩
    · rw [setDflt, getNode_setNode_ne _ _ (fun hh => hn hh.symm)]
      exact ⟨rfl, rfl, rfl⟩
  · rw [setDflt, setNode_oob _ _ (le_of_not_lt hp)]
    exact ⟨rfl, rfl, rfl⟩

theorem lookupSymbol_setDflt (h : Heap) (pid : Nat) (l : List Symbol)
    (nid : Nat) (v : List Nat) :
    lookupSymbol (setDflt h pid l) nid v = lookupSymbol h nid v := by
  rw [lookupSymbol, lookupSymbol, (getNode_setDflt_fields h pid l nid).1]

theorem getNode_setNode (h : Heap) (i j : Nat) (d : NodeData) :
    getNode (setNode h i d) j =
      if i = j ∧ i < h.nodes.length then d else getNode h j := by
  by_cases hij : i = j
  · subst hij
    by_cases hi : i < h.nodes.length
    · rw [getNode_setNode_self _ _ hi, if_pos ⟨rfl, hi⟩]
    · rw [setNode_oob _ _ (le_of_not_lt hi), if_neg (fun hc => hi hc.2)]
  · rw [getNode_setNode_ne _ _ hij, if_neg (fun hc => hij hc.1)]

theorem setNode_comm (h : Heap) {i j : Nat} (hij : i ≠ j)
    (d1 d2 : NodeData) :
    setNode (setNode h i d1) j d2 = setNode (setNode h j d2) i d1 := by
  simp only [setNode]
  rw [List.set_comm _ _ _ hij]

theorem setNode_symbols_setDflt_comm (h : Heap) (pid nid : Nat)
    (l : List Symbol) (s : List Symbol) :
    setNode (setDflt h pid l) nid
        { getNode (setDflt h pid l) nid with symbols := s } =
    setDflt (setNode h nid { getNode h nid with symbols := s }) pid l := by
  by_cases hp : pid < h.nodes.length
  · by_cases hnp : nid = pid
    · subst hnp
      show setNode (setNode h nid _) nid _ = setNode (setNode h nid _) nid _
      rw [setNode_setNode, setNode_setNode]
      rw [show getNode (setDflt h nid l) nid =
          { getNode h nid with dflt := l } from
        getNode_setNode_self _ _ hp]
      rw [show getNode (setNode h nid
            { getNode h nid with symbols := s }) nid =
          { getNode h nid with symbols := s } from
        getNode_setNode_self _ _ hp]
    · rw [show getNode (setDflt h pid l) nid = getNode h nid from
        getNode_setNode_ne _ _ (fun hh => hnp hh.symm)]
      show setNode (setNode h pid _) nid _ = setNode (setNode h nid _) pid _
      rw [show getNode (setNode h nid
            { getNode h nid with symbols := s }) pid =
          getNode h pid from getNode_setNode_ne _ _ hnp]
      exact setNode_comm h (fun hh => hnp hh.symm) _ _
  · have hoob : setDflt h pid l = h := setNode_oob _ _ (le_of_not_lt hp)
    rw [hoob]
    rw [show setDflt (setNode h nid { getNode h nid with symbols := s }) pid l =
        setNode h nid { getNode h nid with symbols := s } from
      setNode_oob _ _ (by rw [length_setNode]; exact le_of_not_lt hp)]

theorem addSymbol_setDflt (h : Heap) (pid : Nat) (l : List Symbol)
    (nid : Nat) (s : Option Symbol) :
    addSymbol (setDflt h pid l) nid s =
      (addSymbol h nid s).map (fun h' => setDflt h' pid l) := by
  cases s with
  | none => rfl
  | some s' =>
    by_cases hv : s'.value = []
    · simp [addSymbol, hv, Except.map]
    · rw [addSymbol, addSymbol, if_neg hv, if_neg hv,
        (getNode_setDflt_fields h pid l nid).1]
      by_cases hd : (getNode h nid).symbols.any (fun t => t.value == s'.value) = true
      · simp [hd, Except.map]
      · simp only [Bool.not_eq_true] at hd
        simp only [hd, Bool.false_eq_true, if_false, Except.map]
        exact congrArg Except.ok (setNode_symbols_setDflt_comm h pid nid l _)

theorem createSymbol_setDflt (h : Heap) (pid : Nat) (l : List Symbol)
    (nid : Nat) (v : List Nat) :
    createSymbol (setDflt h pid l) nid v =
      (createSymbol h nid v).map (fun q => (setDflt q.1 pid l, q.2)) := by
  rw [createSymbol, createSymbol, (getNode_setDflt_fields h pid l nid).2.2]
  rw [addSymbol_setDflt]
  rcases addSymbol h nid (some { value := v, node := (getNode h nid).owner }) with e | h2
  · rfl
  · rfl

theorem findSymbolF_setDflt :
    ∀ (f : Nat) (h : Heap) (pid : Nat) (l : List Symbol) (nid : Nat)
      (v : List Nat) (c : Bool),
    findSymbolF f (setDflt h pid l) nid v c =
      (findSymbolF f h nid v c).map (fun q => (setDflt q.1 pid l, q.2)) := by
  intro f
  induction f with
  | zero =>
    intro h pid l nid v c
    rfl
  | succ g ih =>
    intro h pid l nid v c
    have hpar := (getNode_setDflt_fields h pid l nid).2.1
    cases hl : lookupSymbol h nid v with
    | some s =>
      simp only [findSymbolF, lookupSymbol_setDflt, hl, Except.map]
    | none =>
      cases hp : (getNode h nid).parent with
      | none =>
        rw [hp] at hpar
        simp only [findSymbolF, lookupSymbol_setDflt, hl, hpar, hp]
        cases c with
        | true =>
          simp only [if_true]
          rw [createSymbol_setDflt]
          rcases createSymbol h nid v with e | q <;> rfl
        | false => rfl
      | some p =>
        rw [hp] at hpar
        simp only [findSymbolF, lookupSymbol_setDflt, hl, hpar, hp]
        by_cases hpl : p < nid
        · simp only [if_pos hpl, ih]
          rcases findSymbolF g h p v c with e | ⟨h2, os⟩
          · rfl
          · cases os with
            | some s => rfl
            | none =>
              cases c with
              | true =>
                simp only [Except.map, if_true]
                rw [createSymbol_setDflt]
                rcases createSymbol h2 nid v with e | q <;> rfl
              | false => rfl
        · simp only [if_neg hpl]
          cases c with
          | true =>
            simp only [if_true]
            rw [createSymbol_setDflt]
            rcases createSymbol h nid v with e | q <;> rfl
          | false => rfl

theorem findSymbol_setDflt (h : Heap) (pid : Nat) (l : List Symbol)
    (nid : Nat) (v : List Nat) (c : Bool) :
    findSymbol (setDflt h pid l) nid v c =
      (findSymbol h nid v c).map (fun q => (setDflt q.1 pid l, q.2)) :=
  findSymbolF_setDflt _ h pid l nid v c

theorem findNestedSymbol_setDflt :
    ∀ (path : List (List Nat)) (h : Heap) (pid : Nat) (l : List Symbol)
      (nid : Nat),
    findNestedSymbol (setDflt h pid l) nid path =
      (findNestedSymbol h nid path).map (fun q => (setDflt q.1 pid l, q.2)) := by
  intro path
  induction path with
  | nil =>
    intro h pid l nid
    rfl
  | cons v rest ih =>
    intro h pid l nid
    cases rest with
    | nil => exact findSymbol_setDflt h pid l nid v true
    | cons v' rest' =>
      rw [findNestedSymbol, findNestedSymbol, findSymbol_setDflt]
      rcases findSymbol h nid v false with e | ⟨h2, os⟩
      · rfl
      · cases os with
        | none => rfl
        | some s =>
          simp only [Except.map]
          cases s.node with
          | some nxt => exact ih h2 pid l nxt
          | none =>
            cases s.scope with
            | some nxt => exact ih h2 pid l nxt
            | none => rfl

theorem addDefault_setDflt (h : Heap) (pid : Nat) (l : List Symbol)
    (s : Symbol) :
    addDefault (setDflt h pid l) pid (some s) = .ok (setDflt h pid (l ++ [s])) := by
  rw [addDefault]
  by_cases hp : pid < h.nodes.length
  · rw [setDflt, getNode_setNode_self _ _ hp]
    simp only []
    rw [setNode_setNode]
    rfl
  · rw [setDflt, setNode_oob _ _ (le_of_not_lt hp),
      setDflt, setNode_oob _ _ (le_of_not_lt hp),
      setNode_oob _ _ (le_of_not_lt hp)]

/-! ### C3: default chains -/

theorem chainToks_length_ge :
    ∀ (ps : List NsId) (p0 : NsId), ps.length + 1 ≤ (chainToks p0 ps).length := by
  intro ps
  induction ps with
  | nil =>
    intro p0
    obtain ⟨a, b⟩ := p0
    cases b <;> simp [chainToks, nsIdToks]
  | cons q qs ih =>
    intro p0
    obtain ⟨a, b⟩ := p0
    have hq := ih q
    cases b <;> simp [chainToks, nsIdToks] <;> omega

theorem resolveChainSpec_cons (h : Heap) (pid : Nat) (p : List (List Nat))
    (ps : List (List (List Nat))) :
    resolveChainSpec h pid (p :: ps) =
      (match findNestedSymbol h pid p with
       | .error e => .error e
       | .ok (_, none) => .error .panicNilDefault
       | .ok (h1, some s) =>
         (resolveChainSpec h1 pid ps).map (fun q => (q.1, s :: q.2))) := rfl

/-- The default-chain loop of `analyzeProperty` simulates the
side-effect-free chain resolution: started on a heap whose property `pid`
carries defaults `l`, with the token rendering of the chain followed by `;`,
it ends (when every element resolves) with the resolved symbols appended to
`l` in encounter order, and fails exactly as the resolution fails. -/
theorem defaultsLoop_sim :
    ∀ (ps : List NsId) (p0 : NsId) (fuel : Nat) (g : Heap) (l : List Symbol)
      (pid : Nat), ps.length < fuel →
    defaultsLoop fuel pid ⟨setDflt g pid l, chainToks p0 ps ++ [semiTok]⟩ =
      (match resolveChainSpec g pid ((p0 :: ps).map nsIdPath) with
       | .ok (h2, syms) => .ok ⟨setDflt h2 pid (l ++ syms), [semiTok]⟩
       | .error e => .error e) := by
  intro ps
  induction ps with
  | nil =>
    intro p0 fuel g l pid hfuel
    cases fuel with
    | zero => exact absurd hfuel (Nat.not_lt_zero _)
    | succ f =>
      have hg := gni_on_nsIdToks (setDflt g pid l) p0 [semiTok]
        (fun r0 rs hr => by cases hr; decide)
      simp only [chainToks]
      simp only [defaultsLoop, hg, except_bind_ok, tokenValues_nsIdTokList]
      rw [findNestedSymbol_setDflt]
      rcases hres : findNestedSymbol g pid (nsIdPath p0) with e | ⟨h1, os⟩
      · simp only [Except.map, except_bind_error]
        simp only [List.map_cons, List.map_nil, resolveChainSpec, hres]
      · cases os with
        | none =>
          simp only [Except.map, except_bind_ok, addDefault, except_bind_error]
          simp only [List.map_cons, List.map_nil, resolveChainSpec, hres]
        | some s =>
          simp only [Except.map, except_bind_ok]
          rw [addDefault_setDflt]
          simp only [except_bind_ok]
          rw [optionalTokenE_cons_none _ _
            (by decide : tokenEqual binaryOrToken semiTok = false)]
          simp only [List.map_cons, List.map_nil, resolveChainSpec, hres,
            Except.map, except_pure]
  | cons q qs ih =>
    intro p0 fuel g l pid hfuel
    cases fuel with
    | zero => exact absurd hfuel (Nat.not_lt_zero _)
    | succ f =>
      have hsplit : chainToks p0 (q :: qs) ++ [semiTok] =
          nsIdToks p0 ++ (orTok :: (chainToks q qs ++ [semiTok])) := by
        simp [chainToks, List.append_assoc]
      rw [hsplit]
      have hg := gni_on_nsIdToks (setDflt g pid l) p0
        (orTok :: (chainToks q qs ++ [semiTok]))
        (fun r0 rs hr => by cases hr; decide)
      simp only [defaultsLoop, hg, except_bind_ok, tokenValues_nsIdTokList]
      rw [findNestedSymbol_setDflt]
      rcases hres : findNestedSymbol g pid (nsIdPath p0) with e | ⟨h1, os⟩
      · simp only [Except.map, except_bind_error]
        rw [List.map_cons, resolveChainSpec_cons, hres]
      · cases os with
        | none =>
          simp only [Except.map, except_bind_ok, addDefault, except_bind_error]
          rw [List.map_cons, resolveChainSpec_cons, hres]
        | some s =>
          simp only [Except.map, except_bind_ok]
          rw [addDefault_setDflt]
          simp only [except_bind_ok]
          rw [optionalTokenE_cons_some _ _
            (by decide : tokenEqual binaryOrToken orTok = true)]
          simp only []
          rw [ih q f h1 (l ++ [s]) pid (Nat.lt_of_succ_lt_succ hfuel)]
          conv_rhs => rw [List.map_cons, resolveChainSpec_cons, hres]
          simp only []
          rcases resolveChainSpec h1 pid (List.map nsIdPath (q :: qs))
            with e | ⟨h2, syms⟩
          · rfl
          · simp [List.append_assoc, Except.map]

theorem length_resolveChainSpec :
    ∀ (ps : List (List (List Nat))) (h : Heap) (pid : Nat) (h2 : Heap)
      (syms : List Symbol),
      resolveChainSpec h pid ps = .ok (h2, syms) →
      h2.nodes.length = h.nodes.length := by
  intro ps
  induction ps with
  | nil =>
    intro h pid h2 syms hs
    simp only [resolveChainSpec, Except.ok.injEq, Prod.mk.injEq] at hs
    rw [← hs.1]
  | cons p ps ih =>
    intro h pid h2 syms hs
    rw [resolveChainSpec_cons] at hs
    rcases hr : findNestedSymbol h pid p with e | ⟨h1, os⟩ <;> rw [hr] at hs
    · exact absurd hs (by simp)
    · cases os with
      | none => exact absurd hs (by simp)
      | some s =>
        simp only [] at hs
        rcases hc : resolveChainSpec h1 pid ps with e | ⟨h3, syms3⟩ <;>
          rw [hc] at hs
        · exact absurd hs (by simp [Except.map])
        · simp only [Except.map, Except.ok.injEq, Prod.mk.injEq] at hs
          rw [← hs.1, ih h1 pid h3 syms3 hc,
            length_findNestedSymbol _ _ _ _ _ hr]

/-- C3.  For a property `y = X (| Y)*;`, every element of the default chain
is resolved via `FindNestedSymbol` against the property node itself and the
results are appended to the property's default list in encounter order: the
analyzer run equals the side-effect-free chain resolution
`resolveChainSpec` started from the heap at the start of the chain loop
(`h9`, the heap after the property symbol is added), and the final default
list of the property node is exactly the resolved symbol list.  (`hadd`
names the heap after the property's own symbol is added; `hspec` the chain
resolution's result.) -/
theorem analyzeProperty_default_chain
    (st : St) (root : Nat) (t1 : Token) (p0 : NsId) (ps : List NsId)
    (h7 h2 : Heap) (syms : List Symbol)
    (hroot : root < st.heap.nodes.length)
    (ht1 : t1.op = .opIdentifier)
    (htoks : st.toks = t1 :: eqAssignTok :: (chainToks p0 ps ++ [semiTok]))
    (hadd : addSymbol
        (setFlagsOpt (setValue (allocNode st.heap (some root) .prop).1
          st.heap.nodes.length t1.value) st.heap.nodes.length none)
        root (some (nodeSymbol
          (setFlagsOpt (setValue (allocNode st.heap (some root) .prop).1
            st.heap.nodes.length t1.value) st.heap.nodes.length none)
          st.heap.nodes.length)) = .ok h7)
    (hspec : resolveChainSpec (setFlagsStr h7 st.heap.nodes.length [])
        st.heap.nodes.length ((p0 :: ps).map nsIdPath) = .ok (h2, syms)) :
    analyzeProperty root st =
      .ok ⟨setDflt h2 st.heap.nodes.length syms, []⟩ ∧
    (getNode (setDflt h2 st.heap.nodes.length syms)
        st.heap.nodes.length).dflt = syms := by
  obtain ⟨hp, toks⟩ := st
  simp only at htoks
  subst htoks
  simp only at hroot hadd hspec ⊢
  have halloc := getNode_allocNode_self hp root .prop hroot
  have hlen5 : (setValue (allocNode hp (some root) .prop).1
      hp.nodes.length t1.value).nodes.length = hp.nodes.length + 1 := by
    rw [setValue, length_setNode, allocNode_fst_length]
  have hd0 : (getNode (setValue (allocNode hp (some root) .prop).1
      hp.nodes.length t1.value) hp.nodes.length).dflt = [] := by
    rw [setValue, getNode_setNode_self _ _ (by rw [allocNode_fst_length]; omega)]
    simp [halloc]
  have hd1 : (getNode (setFlagsOpt (setValue (allocNode hp (some root) .prop).1
      hp.nodes.length t1.value) hp.nodes.length none) hp.nodes.length).dflt = [] := by
    rw [setFlagsOpt, getNode_setNode_self _ _ (by rw [hlen5]; omega)]
    exact hd0
  have hlen7 : h7.nodes.length = hp.nodes.length + 1 := by
    rw [length_addSymbol hadd, setFlagsOpt, length_setNode, hlen5]
  have hd2 : (getNode h7 hp.nodes.length).dflt = [] := by
    obtain ⟨s7, -, rfl⟩ := addSymbol_ok_shape hadd
    rw [getNode_setNode_ne _ _ (by omega)]
    exact hd1
  have hdflt : (getNode (setFlagsStr h7 hp.nodes.length [])
      hp.nodes.length).dflt = [] := by
    rw [setFlagsStr, getNode_setNode_self _ _ (by omega)]
    exact hd2
  have hsd : setDflt (setFlagsStr h7 hp.nodes.length []) hp.nodes.length [] =
      setFlagsStr h7 hp.nodes.length [] := by
    rw [setDflt, ← hdflt]
    exact setNode_getNode _ _
  have hlen2 : h2.nodes.length = hp.nodes.length + 1 := by
    rw [length_resolveChainSpec _ _ _ _ _ hspec, setFlagsStr, length_setNode,
      hlen7]
  have hfuel : ps.length < (chainToks p0 ps ++ [semiTok]).length + 1 := by
    have := chainToks_length_ge ps p0
    rw [List.length_append]
    simp only [List.length_cons, List.length_nil]
    omega
  have hloop := defaultsLoop_sim ps p0
    ((chainToks p0 ps ++ [semiTok]).length + 1)
    (setFlagsStr h7 hp.nodes.length []) [] hp.nodes.length hfuel
  rw [hsd, hspec] at hloop
  simp only [List.nil_append] at hloop
  refine ⟨?_, ?_⟩
  · have e1 := @expectOp_cons_ok t1 .opIdentifier
      (allocNode hp (some root) .prop).1
      (eqAssignTok :: (chainToks p0 ps ++ [semiTok])) ht1
    have e2 := gqi_no_qualifier (allocNode hp (some root) .prop).1 eqAssignTok
      (chainToks p0 ps ++ [semiTok]) (by decide)
    have e3 := @optionalOp_cons_none eqAssignTok .opIdentifier
      (allocNode hp (some root) .prop).1 (chainToks p0 ps ++ [semiTok])
      (by decide)
    have efns : findNestedSymbol (setValue (allocNode hp (some root) .prop).1
        hp.nodes.length t1.value) root (tokenValues []) =
        .ok (setValue (allocNode hp (some root) .prop).1
          hp.nodes.length t1.value, none) := rfl
    have e4 := @optionalTokenE_cons_some assignmentToken
      eqAssignTok (setFlagsStr h7 hp.nodes.length [])
      (chainToks p0 ps ++ [semiTok]) (by decide)
    have e6 := @expectOp_cons_ok semiTok .opTerminator
      (setDflt h2 hp.nodes.length syms) [] (by decide)
    have e7 := optionalTokenE_nil obsoleteToken (setDflt h2 hp.nodes.length syms)
    simp only [analyzeProperty, allocNode_snd, except_bind_ok,
      except_bind_error, except_pure, e1, e2, e3, efns, hadd, e4, ne_eq,
      hloop, e6, e7]
    simp
  · rw [setDflt, getNode_setNode_self _ _ (by omega)]

/-- C3 witness: analyzing `y = C | MyEnum2::y;` inside `MyClass` yields the
two-element default list in encounter order: the symbol of `C` from the
ambient class scope, then the symbol of `y` found among `MyEnum2`'s own
child symbols. -/
theorem analyzeProperty_default_chain_witness :
    analyzeProperty 3 ⟨c3Heap, c3Toks⟩ = .ok ⟨setDflt c3H9 5 c3Syms, []⟩ ∧
    (getNode (setDflt c3H9 5 c3Syms) 5).dflt = c3Syms := by
  have h := analyzeProperty_default_chain ⟨c3Heap, c3Toks⟩ 3
    (mkIdentTok (bts "y")) (bts "C", none) [(bts "MyEnum2", some (bts "y"))]
    c3H7 c3H9 c3Syms (by decide) (by decide) (by decide) (by decide)
    (by decide)
  exact h

/-- C4 witness: property `x <Q> ;` inside class node 1 of a three-node heap
where `Q` names the enum node 2: the qualifier resolves (against the class
scope and, equally, against the property node itself) to `Q`'s symbol. -/
theorem analyzeProperty_qualifier_resolution_witness :
    analyzeProperty 1 c4St = .ok ⟨setFlagsStr c4H7 3 [], []⟩ ∧
    findNestedSymbol c4H6 3 [[81]] = .ok (c4H6, c4Fq) := by
  have h := analyzeProperty_qualifier_resolution c4St 1 (mkIdentTok [120])
    ([81], none) c4H6 c4Fq c4H7
    (by decide) (by decide) (by decide) (by decide) (by decide)
  exact ⟨h.1, h.2.1⟩


/-! ### C5 and C8: the tokenizer's reported positions, and the spans of
identifier tokens -/

theorem decodeRuneB_size_pos (b0 : Nat) (rest : List Nat) :
    1 ≤ (decodeRuneB (b0 :: rest)).2 := by
  rcases rest with _ | ⟨b1, _ | ⟨b2, _ | ⟨b3, r3⟩⟩⟩ <;>
    (simp only [decodeRuneB]
     repeat' split
     all_goals simp)

theorem colFold_of_mem (rs : List Nat) (h : 10 ∈ rs) (init : Nat) :
    colFold init rs = colFold 0 rs := by
  induction rs generalizing init with
  | nil => cases h
  | cons a l ih =>
    by_cases ha : a = 10
    · subst ha
      simp [colFold, List.foldl_cons]
    · have hl : 10 ∈ l := by
        rcases List.mem_cons.mp h with h1 | h1
        · exact absurd h1.symm ha
        · exact h1
      show colFold (if a == 10 then 0 else init + 1) l =
        colFold (if a == 10 then 0 else 0 + 1) l
      rw [ih hl]
      conv_rhs => rw [ih hl]

theorem colFold_of_not_mem (rs : List Nat) (h : 10 ∉ rs) (init : Nat) :
    colFold init rs = init + rs.length := by
  induction rs generalizing init with
  | nil => simp [colFold]
  | cons a l ih =>
    have ha : ¬ a = 10 := fun hc => h (hc ▸ List.mem_cons_self a l)
    have hl : 10 ∉ l := fun hc => h (List.mem_cons_of_mem a hc)
    show colFold (if a == 10 then 0 else init + 1) l = init + (a :: l).length
    simp only [beq_iff_eq, ha, if_false, ih hl, List.length_cons]
    omega

theorem countRunesF_runesOfF (fuel : Nat) : ∀ (bs : List Nat) (rows cols : Nat),
    bs.length ≤ fuel →
    countRunesF fuel bs rows cols =
      (match runesOfF fuel bs with
       | none => .error .invalidUtf8
       | some rs => .ok (rows + rs.count 10, colFold cols rs)) := by
  induction fuel with
  | zero =>
    intro bs rows cols h
    have hb : bs = [] := by cases bs <;> simp_all
    subst hb
    simp [countRunesF, runesOfF, colFold]
  | succ fuel ih =>
    intro bs rows cols h
    cases bs with
    | nil => simp [countRunesF, runesOfF, colFold]
    | cons b r =>
      rcases hd : decodeRuneB (b :: r) with ⟨rv, s⟩
      have hs : 1 ≤ s := by
        have hp := decodeRuneB_size_pos b r
        rw [hd] at hp
        exact hp
      have hlen : ((b :: r).drop s).length ≤ fuel := by
        simp only [List.length_drop, List.length_cons]
        simp only [List.length_cons] at h
        omega
      simp only [countRunesF, runesOfF, hd]
      by_cases h10 : rv = 10
      · subst h10
        simp only [ih _ _ _ hlen]
        rcases runesOfF fuel ((b :: r).drop s) with _ | rs
        · simp
        · simp only [Option.map_some', List.count_cons, Bool.false_eq_true,
            if_false]
          simp [colFold]
          omega
      · by_cases hbad : rv = 0xFFFD
        · subst hbad
          simp
        · have h10b : (rv == 10) = false := by simp [h10]
          have hbadb : (rv == 0xFFFD) = false := by simp [hbad]
          simp only [h10b, hbadb, Bool.false_eq_true, if_false,
            ih _ _ _ hlen]
          rcases runesOfF fuel ((b :: r).drop s) with _ | rs
          · simp
          · simp [List.count_cons, h10, colFold, h10b]

theorem countRunesB_spec (bs : List Nat) :
    countRunesB bs =
      (match runesOf bs with
       | none => .error .invalidUtf8
       | some rs => .ok (rs.count 10, colFold 0 rs)) := by
  rw [countRunesB, runesOf, countRunesF_runesOfF bs.length bs 0 0 (le_refl _)]
  rcases runesOfF bs.length bs with _ | rs <;> simp

theorem tokenizeLoop_tokenizeSpec : ∀ (ms : List RawMatch) (crs : List Nat),
    tokenizeLoop ms (rowCount crs) (colCount crs) = tokenizeSpec ms crs := by
  intro ms
  induction ms with
  | nil => intro crs; rfl
  | cons m ms ih =>
    intro crs
    simp only [tokenizeLoop, tokenizeSpec, countRunesB_spec]
    rcases hr : runesOf m.matched with _ | mrs
    · rfl
    · have hrow : rowCount crs + mrs.count 10 = rowCount (crs ++ mrs) := by
        simp only [rowCount, List.count_append]
        omega
      have hcolx : colCount (crs ++ mrs) = colFold (colCount crs) mrs := by
        simp [colCount, colFold, List.foldl_append]
      have hcol : (if mrs.count 10 > 0 then colFold 0 mrs
          else colCount crs + colFold 0 mrs) = colCount (crs ++ mrs) := by
        by_cases hm : 10 ∈ mrs
        · rw [if_pos (List.count_pos_iff.mpr hm), hcolx]
          conv_rhs => rw [colFold_of_mem mrs hm]
        · have h0 : mrs.count 10 = 0 := List.count_eq_zero.mpr hm
          rw [if_neg (by omega), hcolx, colFold_of_not_mem mrs hm,
            colFold_of_not_mem mrs hm]
          omega
      simp only [except_bind_ok]
      rw [hrow, hcol, ih (crs ++ mrs)]
      rcases tokenizeSpec ms (crs ++ mrs) with e | ts <;>
        simp [Except.map, except_bind_error, except_bind_ok, except_pure]

theorem strScan_split : ∀ (l p1 p2 : List Nat),
    strScan l = some (p1, p2) → p1 ++ 34 :: p2 = l := by
  intro l
  induction l with
  | nil => intro p1 p2 h; cases h
  | cons b r ih =>
    intro p1 p2 h
    by_cases h34 : b = 34
    · subst h34
      simp [strScan] at h
      obtain ⟨rfl, rfl⟩ := h
      rfl
    · by_cases h10 : b = 10
      · subst h10
        simp [strScan, h34] at h
      · simp only [strScan, beq_iff_eq, h34, h10, if_false] at h
        rcases hq : strScan r with _ | ⟨q1, q2⟩
        · rw [hq] at h; cases h
        · rw [hq] at h
          simp only [Option.map_some', Option.some.injEq, Prod.mk.injEq] at h
          obtain ⟨⟨rfl, rfl⟩, rfl⟩ := h
          simp only [List.cons_append, List.cons.injEq, true_and]
          exact ih q1 q2 hq

theorem matchWhitespace_spec (bs : List Nat) (m : RawMatch) (rest : List Nat)
    (h : matchWhitespace bs = some (m, rest)) :
    m.matched ++ rest = bs ∧ m.matched ≠ [] ∧ m.op = .opWhitespace := by
  simp only [matchWhitespace] at h
  split at h
  · cases h
  · rename_i hne
    simp only [Option.some.injEq, Prod.mk.injEq] at h
    obtain ⟨rfl, rfl⟩ := h
    refine ⟨?_, ?_, rfl⟩
    · show List.takeWhile isSpaceB bs ++ List.dropWhile isSpaceB bs = bs
      exact List.takeWhile_append_dropWhile _ _
    · show ¬ List.takeWhile isSpaceB bs = []
      intro hc
      exact hne (by rw [hc]; rfl)

theorem matchTerminator_spec (bs : List Nat) (m : RawMatch) (rest : List Nat)
    (h : matchTerminator bs = some (m, rest)) :
    m.matched ++ rest = bs ∧ m.matched ≠ [] ∧ m.op = .opTerminator := by
  unfold matchTerminator at h
  split at h
  · simp only [Option.some.injEq, Prod.mk.injEq] at h
    obtain ⟨rfl, rfl⟩ := h
    exact ⟨rfl, by simp, rfl⟩
  · cases h

theorem matchStringLit_spec (bs : List Nat) (m : RawMatch) (rest : List Nat)
    (h : matchStringLit bs = some (m, rest)) :
    m.matched ++ rest = bs ∧ m.matched ≠ [] ∧ m.op = .opString := by
  unfold matchStringLit at h
  split at h
  · rename_i c0 r
    split at h
    · cases h
    · split at h <;>
      · rcases hq : strScan r with _ | ⟨q1, q2⟩
        · rw [hq] at h; cases h
        · rw [hq] at h
          simp only [Option.map_some', Option.some.injEq, Prod.mk.injEq] at h
          obtain ⟨rfl, rfl⟩ := h
          have hr := strScan_split r q1 q2 hq
          refine ⟨?_, by simp, rfl⟩
          simp only [List.cons_append, List.append_assoc, List.singleton_append,
            List.cons.injEq, true_and]
          exact hr
  · cases h

theorem matchComment_spec (bs : List Nat) (m : RawMatch) (rest : List Nat)
    (h : matchComment bs = some (m, rest)) :
    m.matched ++ rest = bs ∧ m.matched ≠ [] ∧ m.op = .opComment := by
  unfold matchComment at h
  split at h
  · simp only [Option.some.injEq, Prod.mk.injEq] at h
    obtain ⟨rfl, rfl⟩ := h
    refine ⟨?_, by simp, rfl⟩
    simp [List.takeWhile_append_dropWhile]
  · cases h

theorem matchIdentifier_spec (bs : List Nat) (m : RawMatch) (rest : List Nat)
    (h : matchIdentifier bs = some (m, rest)) :
    m.matched ++ rest = bs ∧ m.matched ≠ [] ∧ m.op = .opIdentifier ∧
      identShape m.matched = true ∧ m.captured = m.matched := by
  have hall : ∀ (r : List Nat), (r.takeWhile isIdentContB).all isIdentContB = true := by
    intro r
    exact List.all_eq_true.mpr fun x hx => List.mem_takeWhile_imp hx
  unfold matchIdentifier at h
  split at h
  · rename_i c r
    split at h
    · rename_i hstart
      simp only [Option.some.injEq, Prod.mk.injEq] at h
      obtain ⟨rfl, rfl⟩ := h
      refine ⟨?_, by simp, rfl, ?_, rfl⟩
      · simp [List.takeWhile_append_dropWhile]
      · simp [identShape, identShapeCore, hstart, hall r]
    · cases h
  · rename_i c r hne
    split at h
    · rename_i hstart
      simp only [Option.some.injEq, Prod.mk.injEq] at h
      obtain ⟨rfl, rfl⟩ := h
      refine ⟨?_, by simp, rfl, ?_, rfl⟩
      · simp [List.takeWhile_append_dropWhile]
      · simp [identShape, identShapeCore, hstart, hall r]
    · cases h
  · cases h

theorem matchNamespace_spec (bs : List Nat) (m : RawMatch) (rest : List Nat)
    (h : matchNamespace bs = some (m, rest)) :
    m.matched ++ rest = bs ∧ m.matched ≠ [] ∧ m.op = .opNamespace := by
  unfold matchNamespace at h
  split at h
  · simp only [Option.some.injEq, Prod.mk.injEq] at h
    obtain ⟨rfl, rfl⟩ := h
    exact ⟨rfl, by simp, rfl⟩
  · cases h

theorem matchPreprocess_spec (bs : List Nat) (m : RawMatch) (rest : List Nat)
    (h : matchPreprocess bs = some (m, rest)) :
    m.matched ++ rest = bs ∧ m.matched ≠ [] ∧ m.op = .opPreprocess := by
  unfold matchPreprocess at h
  split at h
  · simp only [Option.some.injEq, Prod.mk.injEq] at h
    obtain ⟨rfl, rfl⟩ := h
    refine ⟨?_, by simp, rfl⟩
    simp [List.takeWhile_append_dropWhile]
  · cases h

theorem matchOperator_spec (bs : List Nat) (m : RawMatch) (rest : List Nat)
    (h : matchOperator bs = some (m, rest)) :
    m.matched ++ rest = bs ∧ m.matched ≠ [] ∧ m.op = .opOperator := by
  unfold matchOperator at h
  split at h
  · split at h
    · simp only [Option.some.injEq, Prod.mk.injEq] at h
      obtain ⟨rfl, rfl⟩ := h
      exact ⟨rfl, by simp, rfl⟩
    · cases h
  · cases h

theorem matchInvalid_spec (bs : List Nat) (m : RawMatch) (rest : List Nat)
    (h : matchInvalid bs = some (m, rest)) :
    m.matched ++ rest = bs ∧ m.matched ≠ [] ∧ m.op = .opInvalid := by
  simp only [matchInvalid] at h
  split at h
  · cases h
  · rename_i hne
    simp only [Option.some.injEq, Prod.mk.injEq] at h
    obtain ⟨rfl, rfl⟩ := h
    refine ⟨?_, ?_, rfl⟩
    · show List.takeWhile (fun b => !isSpaceB b) bs ++
        List.dropWhile (fun b => !isSpaceB b) bs = bs
      exact List.takeWhile_append_dropWhile _ _
    · show ¬ List.takeWhile (fun b => !isSpaceB b) bs = []
      intro hc
      exact hne (by rw [hc]; rfl)

theorem scanStep_consumes (bs : List Nat) (m : RawMatch) (rest : List Nat)
    (h : scanStep bs = some (m, rest)) :
    m.matched ++ rest = bs ∧ m.matched ≠ [] := by
  simp only [scanStep] at h
  rcases h1 : matchWhitespace bs with _ | p1
  rotate_left
  · rw [h1] at h
    simp only [Option.orElse] at h
    obtain rfl : p1 = (m, rest) := Option.some.inj h
    obtain ⟨a, b, -⟩ := matchWhitespace_spec bs m rest h1
    exact ⟨a, b⟩
  rw [h1] at h
  simp only [Option.orElse] at h
  rcases h2 : matchTerminator bs with _ | p2
  rotate_left
  · rw [h2] at h
    obtain rfl : p2 = (m, rest) := Option.some.inj h
    obtain ⟨a, b, -⟩ := matchTerminator_spec bs m rest h2
    exact ⟨a, b⟩
  rw [h2] at h
  rcases h3 : matchStringLit bs with _ | p3
  rotate_left
  · rw [h3] at h
    obtain rfl : p3 = (m, rest) := Option.some.inj h
    obtain ⟨a, b, -⟩ := matchStringLit_spec bs m rest h3
    exact ⟨a, b⟩
  rw [h3] at h
  rcases h4 : matchComment bs with _ | p4
  rotate_left
  · rw [h4] at h
    obtain rfl : p4 = (m, rest) := Option.some.inj h
    obtain ⟨a, b, -⟩ := matchComment_spec bs m rest h4
    exact ⟨a, b⟩
  rw [h4] at h
  rcases h5 : matchIdentifier bs with _ | p5
  rotate_left
  · rw [h5] at h
    obtain rfl : p5 = (m, rest) := Option.some.inj h
    obtain ⟨a, b, -⟩ := matchIdentifier_spec bs m rest h5
    exact ⟨a, b⟩
  rw [h5] at h
  rcases h6 : matchNamespace bs with _ | p6
  rotate_left
  · rw [h6] at h
    obtain rfl : p6 = (m, rest) := Option.some.inj h
    obtain ⟨a, b, -⟩ := matchNamespace_spec bs m rest h6
    exact ⟨a, b⟩
  rw [h6] at h
  rcases h7 : matchPreprocess bs with _ | p7
  rotate_left
  · rw [h7] at h
    obtain rfl : p7 = (m, rest) := Option.some.inj h
    obtain ⟨a, b, -⟩ := matchPreprocess_spec bs m rest h7
    exact ⟨a, b⟩
  rw [h7] at h
  rcases h8 : matchOperator bs with _ | p8
  rotate_left
  · rw [h8] at h
    obtain rfl : p8 = (m, rest) := Option.some.inj h
    obtain ⟨a, b, -⟩ := matchOperator_spec bs m rest h8
    exact ⟨a, b⟩
  rw [h8] at h
  obtain ⟨a, b, -⟩ := matchInvalid_spec bs m rest h
  exact ⟨a, b⟩

theorem isSome_orElse_left {α : Type} (a : Option α) (f : Unit → Option α)
    (h : a.isSome = true) : (a.orElse f).isSome = true := by
  cases a with
  | none => cases h
  | some x => rfl

theorem isSome_orElse_right {α : Type} (a : Option α) (f : Unit → Option α)
    (h : (f ()).isSome = true) : (a.orElse f).isSome = true := by
  cases a with
  | none => exact h
  | some x => rfl

theorem scanStep_isSome (b : Nat) (r : List Nat) :
    (scanStep (b :: r)).isSome = true := by
  simp only [scanStep]
  by_cases hs : isSpaceB b = true
  · apply isSome_orElse_left
    simp [matchWhitespace, List.takeWhile_cons, hs]
  · apply isSome_orElse_right
    apply isSome_orElse_right
    apply isSome_orElse_right
    apply isSome_orElse_right
    apply isSome_orElse_right
    apply isSome_orElse_right
    apply isSome_orElse_right
    apply isSome_orElse_right
    simp only [Bool.not_eq_true] at hs
    simp [matchInvalid, List.takeWhile_cons, hs]

theorem scanF_join : ∀ (fuel : Nat) (bs : List Nat), bs.length ≤ fuel →
    joinM (scanF fuel bs) = bs := by
  intro fuel
  induction fuel with
  | zero =>
    intro bs h
    have hb : bs = [] := by cases bs <;> simp_all
    subst hb
    rfl
  | succ fuel ih =>
    intro bs h
    cases bs with
    | nil =>
      have h0 : scanStep [] = none := rfl
      simp [scanF, h0, joinM]
    | cons b r =>
      have hS := scanStep_isSome b r
      rcases hstep : scanStep (b :: r) with _ | ⟨m, rest⟩
      · rw [hstep] at hS
        cases hS
      · obtain ⟨happ, hne⟩ := scanStep_consumes _ _ _ hstep
        have hm : 1 ≤ m.matched.length := by
          cases hmm : m.matched with
          | nil => exact absurd hmm hne
          | cons x xs => simp [hmm]
        have hlen : rest.length ≤ fuel := by
          have hl := congrArg List.length happ
          simp only [List.length_append, List.length_cons] at hl
          simp only [List.length_cons] at h
          omega
        have hj : joinM (m :: scanF fuel rest) =
            m.matched ++ joinM (scanF fuel rest) := rfl
        simp only [scanF, hstep]
        rw [hj, ih rest hlen, happ]

/-- C5 (corrected): the lexer's positions are end positions, not start
positions.  `tokenize` adds the rune counts of each matched span to the
running row/column before emitting the token, so every emitted token carries
the 1-based row of its span and the column one past its last character,
where columns count decoded characters (not bytes) since the last line
break; a span the decoder rejects is a lexer failure.  Formally `Tokenize`
equals the spec-side renderer that stamps each token with
`rowCount`/`colCount` of all decoded characters up to and including its own
span, and the matched spans tile the input exactly. -/
theorem tokenize_positions_amended (data : List Nat) :
    tokenizeB data = tokenizeSpec (scanF data.length data) [] ∧
    joinM (scanF data.length data) = data := by
  constructor
  · rw [tokenizeB]
    exact tokenizeLoop_tokenizeSpec (scanF data.length data) []
  · exact scanF_join data.length data (le_refl _)

/-- C5 counterexample: on the input `ab` the single identifier token starts
at row 1, column 1, but the lexer reports column 3 (the column one past the
token's last character), refuting the claim that `Col` is the column of the
token's first character. -/
theorem token_col_counterexample :
    tokenizeB (bts "ab") =
      .ok [{ op := .opIdentifier, value := bts "ab", raw := bts "ab",
             row := 1, col := 3 }] ∧ colCount [] = 1 ∧ (3 : Nat) ≠ 1 := by
  exact ⟨by decide, by decide, by decide⟩

theorem scanStep_identifier (bs : List Nat) (m : RawMatch) (rest : List Nat)
    (h : scanStep bs = some (m, rest)) (hop : m.op = .opIdentifier) :
    matchIdentifier bs = some (m, rest) := by
  simp only [scanStep] at h
  rcases h1 : matchWhitespace bs with _ | p1
  rotate_left
  · rw [h1] at h
    simp only [Option.orElse] at h
    obtain rfl : p1 = (m, rest) := Option.some.inj h
    obtain ⟨-, -, ho⟩ := matchWhitespace_spec bs m rest h1
    rw [ho] at hop
    cases hop
  rw [h1] at h
  simp only [Option.orElse] at h
  rcases h2 : matchTerminator bs with _ | p2
  rotate_left
  · rw [h2] at h
    obtain rfl : p2 = (m, rest) := Option.some.inj h
    obtain ⟨-, -, ho⟩ := matchTerminator_spec bs m rest h2
    rw [ho] at hop
    cases hop
  rw [h2] at h
  rcases h3 : matchStringLit bs with _ | p3
  rotate_left
  · rw [h3] at h
    obtain rfl : p3 = (m, rest) := Option.some.inj h
    obtain ⟨-, -, ho⟩ := matchStringLit_spec bs m rest h3
    rw [ho] at hop
    cases hop
  rw [h3] at h
  rcases h4 : matchComment bs with _ | p4
  rotate_left
  · rw [h4] at h
    obtain rfl : p4 = (m, rest) := Option.some.inj h
    obtain ⟨-, -, ho⟩ := matchComment_spec bs m rest h4
    rw [ho] at hop
    cases hop
  rw [h4] at h
  rcases h5 : matchIdentifier bs with _ | p5
  rotate_left
  · rw [h5] at h
    obtain rfl : p5 = (m, rest) := Option.some.inj h
    rfl
  rw [h5] at h
  rcases h6 : matchNamespace bs with _ | p6
  rotate_left
  · rw [h6] at h
    obtain rfl : p6 = (m, rest) := Option.some.inj h
    obtain ⟨-, -, ho⟩ := matchNamespace_spec bs m rest h6
    rw [ho] at hop
    cases hop
  rw [h6] at h
  rcases h7 : matchPreprocess bs with _ | p7
  rotate_left
  · rw [h7] at h
    obtain rfl : p7 = (m, rest) := Option.some.inj h
    obtain ⟨-, -, ho⟩ := matchPreprocess_spec bs m rest h7
    rw [ho] at hop
    cases hop
  rw [h7] at h
  rcases h8 : matchOperator bs with _ | p8
  rotate_left
  · rw [h8] at h
    obtain rfl : p8 = (m, rest) := Option.some.inj h
    obtain ⟨-, -, ho⟩ := matchOperator_spec bs m rest h8
    rw [ho] at hop
    cases hop
  rw [h8] at h
  obtain ⟨-, -, ho⟩ := matchInvalid_spec bs m rest h
  rw [ho] at hop
  cases hop

theorem scanF_identifier_mem : ∀ (fuel : Nat) (bs : List Nat) (m : RawMatch),
    m ∈ scanF fuel bs → m.op = .opIdentifier →
    identShape m.matched = true ∧ m.captured = m.matched := by
  intro fuel
  induction fuel with
  | zero =>
    intro bs m hm hop
    simp [scanF] at hm
  | succ fuel ih =>
    intro bs m hm hop
    rcases hs : scanStep bs with _ | ⟨m1, rest⟩
    · rw [scanF, hs] at hm
      simp at hm
    · rw [scanF, hs] at hm
      rcases List.mem_cons.mp hm with rfl | hm1
      · have hid := scanStep_identifier bs m rest hs hop
        obtain ⟨-, -, -, hshape, hcap⟩ := matchIdentifier_spec bs m rest hid
        exact ⟨hshape, hcap⟩
      · exact ih rest m hm1 hop

theorem tokenizeLoop_mem : ∀ (ms : List RawMatch) (row col : Nat)
    (ts : List Token), tokenizeLoop ms row col = Except.ok ts →
    ∀ t ∈ ts, ∃ m, m ∈ ms ∧ t.op = m.op ∧ t.value = m.captured ∧
      t.raw = m.matched := by
  intro ms
  induction ms with
  | nil =>
    intro row col ts h t ht
    simp only [tokenizeLoop, Except.ok.injEq] at h
    subst h
    cases ht
  | cons m ms ih =>
    intro row col ts h t ht
    simp only [tokenizeLoop] at h
    rcases hc : countRunesB m.matched with e | p
    · rw [hc] at h
      simp only [except_bind_error] at h
      cases h
    · obtain ⟨rows, cols⟩ := p
      rw [hc] at h
      simp only [except_bind_ok] at h
      split at h
      · obtain ⟨m1, hm1, hrest⟩ := ih _ _ _ h t ht
        exact ⟨m1, List.mem_cons_of_mem m hm1, hrest⟩
      · rcases hrec : tokenizeLoop ms (row + rows)
            (if rows > 0 then cols else col + cols) with e1 | ts1
        · rw [hrec] at h
          simp only [except_bind_error] at h
          cases h
        · rw [hrec] at h
          simp only [except_bind_ok, except_pure, Except.ok.injEq] at h
          subst h
          rcases List.mem_cons.mp ht with rfl | hts
          · exact ⟨m, List.mem_cons_self m ms, rfl, rfl, rfl⟩
          · obtain ⟨m1, hm1, hrest⟩ := ih _ _ _ hrec t hts
            exact ⟨m1, List.mem_cons_of_mem m hm1, hrest⟩

theorem identStart_facts (c : Nat) (h : isIdentStartB c = true) :
    isSpaceB c = false ∧ c ≠ 59 ∧ c ≠ 34 ∧ c ≠ 47 ∧ c ≠ 45 := by
  simp only [isIdentStartB, isAlphaB, isDigitB, Bool.or_eq_true,
    Bool.and_eq_true, decide_eq_true_eq, beq_iff_eq] at h
  simp only [isSpaceB, Bool.or_eq_false_iff, beq_eq_false_iff_ne, ne_eq]
  omega

theorem matchTerminator_none (c : Nat) (r : List Nat) (h : c ≠ 59) :
    matchTerminator (c :: r) = none := by
  unfold matchTerminator
  split
  · rename_i r1 heq
    injection heq with h1 h2
    exact absurd h1 h
  · rfl

theorem matchStringLit_none (c : Nat) (r : List Nat) (h : c ≠ 34) :
    matchStringLit (c :: r) = none := by
  unfold matchStringLit
  split
  · rename_i c0 r1 heq
    injection heq with h1 h2
    exact absurd h1 h
  · rfl

theorem matchComment_none (c : Nat) (r : List Nat) (h : c ≠ 47) :
    matchComment (c :: r) = none := by
  unfold matchComment
  split
  · rename_i r1 heq
    injection heq with h1 h2
    exact absurd h1 h
  · rfl

theorem matchIdentifier_plain (c : Nat) (r : List Nat)
    (h : isIdentStartB c = true) (h45 : c ≠ 45) :
    matchIdentifier (c :: r) =
      some (⟨.opIdentifier, c :: r.takeWhile isIdentContB,
        c :: r.takeWhile isIdentContB⟩, r.dropWhile isIdentContB) := by
  unfold matchIdentifier
  split
  · rename_i c1 r1 heq
    injection heq with h1 h2
    exact absurd h1 h45
  · rename_i c1 r1 heq
    injection heq with h1 h2
    subst h1
    subst h2
    rw [if_pos h]
  · rename_i heq hne
    exact absurd rfl (hne c r)

theorem matchIdentifier_dash (c : Nat) (r : List Nat)
    (h : isIdentStartB c = true) :
    matchIdentifier (45 :: c :: r) =
      some (⟨.opIdentifier, 45 :: c :: r.takeWhile isIdentContB,
        45 :: c :: r.takeWhile isIdentContB⟩, r.dropWhile isIdentContB) := by
  unfold matchIdentifier
  split
  · rename_i c1 r1 heq
    injection heq with h1 h2
    injection h2 with h2 h3
    subst h2
    subst h3
    rw [if_pos h]
  · rename_i cx rx hfail heq
    injection heq with h1 h2
    subst h1
    subst h2
    exact (hfail c r rfl rfl).elim
  · rename_i hfail1 hfail2
    exact (hfail1 c r rfl).elim

theorem scanStep_ident_plain (c : Nat) (r : List Nat)
    (h : isIdentStartB c = true) :
    scanStep (c :: r) =
      some (⟨.opIdentifier, c :: r.takeWhile isIdentContB,
        c :: r.takeWhile isIdentContB⟩, r.dropWhile isIdentContB) := by
  obtain ⟨hsp, h59, h34, h47, h45⟩ := identStart_facts c h
  have hw : matchWhitespace (c :: r) = none := by
    simp [matchWhitespace, List.takeWhile_cons, hsp]
  simp only [scanStep, hw, matchTerminator_none c r h59,
    matchStringLit_none c r h34, matchComment_none c r h47,
    matchIdentifier_plain c r h h45, Option.orElse]

theorem scanStep_ident_dash (c : Nat) (r : List Nat)
    (h : isIdentStartB c = true) :
    scanStep (45 :: c :: r) =
      some (⟨.opIdentifier, 45 :: c :: r.takeWhile isIdentContB,
        45 :: c :: r.takeWhile isIdentContB⟩, r.dropWhile isIdentContB) := by
  have hw : matchWhitespace (45 :: c :: r) = none := by
    simp [matchWhitespace, List.takeWhile_cons, isSpaceB]
  simp only [scanStep, hw, matchTerminator_none 45 (c :: r) (by decide),
    matchStringLit_none 45 (c :: r) (by decide),
    matchComment_none 45 (c :: r) (by decide),
    matchIdentifier_dash c r h, Option.orElse]

/-- C8 (corrected): every identifier token's span matches
`-?[a-zA-Z_0-9][a-zA-Z0-9_.]*` - so, against the claim, a digit may start
an identifier - and the captured value is the whole span; conversely any
input whose head is an identifier-start byte (optionally after `-`) is
claimed by the identifier alternative, which consumes the maximal run of
continuation bytes, with no higher-priority alternative competing. -/
theorem identifier_token_shape_amended :
    (∀ (data : List Nat) (ts : List Token) (t : Token),
       tokenizeB data = .ok ts → t ∈ ts → t.op = .opIdentifier →
       identShape t.raw = true ∧ t.value = t.raw) ∧
    (∀ (c : Nat) (r : List Nat), isIdentStartB c = true →
       scanStep (c :: r) =
         some (⟨.opIdentifier, c :: r.takeWhile isIdentContB,
           c :: r.takeWhile isIdentContB⟩, r.dropWhile isIdentContB)) ∧
    (∀ (c : Nat) (r : List Nat), isIdentStartB c = true →
       scanStep (45 :: c :: r) =
         some (⟨.opIdentifier, 45 :: c :: r.takeWhile isIdentContB,
           45 :: c :: r.takeWhile isIdentContB⟩, r.dropWhile isIdentContB)) := by
  refine ⟨?_, scanStep_ident_plain, scanStep_ident_dash⟩
  intro data ts t hok ht hop
  rw [tokenizeB] at hok
  obtain ⟨m, hm, hopm, hval, hraw⟩ := tokenizeLoop_mem _ _ _ _ hok t ht
  rw [hopm] at hop
  obtain ⟨hshape, hcap⟩ := scanF_identifier_mem data.length data m hm hop
  constructor
  · rw [hraw]
    exact hshape
  · rw [hval, hcap, hraw]

/-- C8 counterexample: the input `1` lexes to an identifier token although
its span starts with a digit, not with a letter, an underscore or `-`. -/
theorem identifier_digit_start_counterexample :
    tokenizeB (bts "1") =
      .ok [{ op := .opIdentifier, value := bts "1", raw := bts "1",
             row := 1, col := 2 }] ∧ claimedIdentStart (bts "1") = false := by
  exact ⟨by decide, by decide⟩

/-- C8 witness: the identifier token for `a9.b` has the identifier span
shape, and an input starting with `-x` is claimed by the identifier
alternative. -/
theorem identifier_token_shape_amended_witness :
    identShape (bts "a9.b") = true ∧
    scanStep (bts "-x") =
      some (⟨.opIdentifier, bts "-x", bts "-x"⟩, []) := by
  constructor
  · exact (identifier_token_shape_amended.1 (bts "a9.b")
      [{ op := .opIdentifier, value := bts "a9.b", raw := bts "a9.b",
         row := 1, col := 5 }]
      { op := .opIdentifier, value := bts "a9.b", raw := bts "a9.b",
        row := 1, col := 5 }
      (by decide) (by decide) rfl).1
  · exact identifier_token_shape_amended.2.2 120 [] (by decide)

end GoSteam
